import Mathlib

/-!
# Verification of the indoor-navigation routing core

Shallow embedding of the routing engine (`src/frontend/lib/navigation/routing.ts`)
and the instruction synthesizer (`src/unnamed/part_007`, the navigation
instruction module) of the repository, together with proofs settling the
frozen claims about them.

Modelling conventions:
* JavaScript numbers are modelled by an arbitrary `LinearOrderedField α`
  (with a `FloorRing` instance for `Math.round`); concrete theorems
  instantiate `α` with `ℚ` or `ℝ`.
* `Math.sqrt` and `Math.atan2` are transcendental; the embedded functions
  take them as explicit function parameters.  Theorems about the genuine
  real-number behaviour instantiate them with `Real.sqrt` and with
  `Complex.arg` (the mathematical `atan2`).
* JavaScript `Map`s are modelled as association lists with
  JavaScript-`Map.set` semantics (updating an existing key keeps its
  position, new keys are appended); `Set`s are modelled as lists queried
  only through membership.
* `Infinity` (which appears in the A* code through `?? Infinity`) is
  modelled by `WithTop α`.
* `uuidv4()` and `new Date().toISOString()` are external effectful
  collaborators; no claim depends on the produced strings, and they are
  modelled as fixed string constants.
-/

namespace Nav

/-- JavaScript `Math.round`: rounds half away from zero toward `+∞`,
i.e. `Math.round x = ⌊x + 1/2⌋`. -/
def jsRound {α : Type} [LinearOrderedField α] [FloorRing α] (x : α) : ℤ :=
  Int.floor (x + 1 / 2)

/-- Node types (`NodeType` in `types/navigation.ts`). -/
inductive NodeType where
  | room | door | intersection | hallway | elevator | stairs
  | entrance | exitNode | restroom | emergency_exit
deriving DecidableEq, Repr

/-- Edge types (`EdgeType` in `types/navigation.ts`). -/
inductive EdgeType where
  | hallway | stairs | elevator | ramp | doorway | outdoor
deriving DecidableEq, Repr

/-- Alert types (`MapAlert.type`). -/
inductive AlertType where
  | closure | hazard | construction | event
deriving DecidableEq, Repr

/-- Alert severities (`MapAlert.severity`). -/
inductive Severity where
  | low | medium | high | critical
deriving DecidableEq, Repr

/-- Instruction actions (`InstructionAction` in `types/navigation.ts`). -/
inductive InstructionAction where
  | start | walk_forward | turn_left | turn_right | turn_around
  | slight_left | slight_right | go_straight | take_elevator
  | take_stairs_up | take_stairs_down | enter_door | exit_door
  | arrive | caution
deriving DecidableEq, Repr

/-- Instruction priorities. -/
inductive Priority where
  | normal | important | critical
deriving DecidableEq, Repr

/-- `Coordinates`: `{x, y, floor}`, all JavaScript numbers. -/
structure Coordinates (α : Type) where
  x : α
  y : α
  floor : α
deriving DecidableEq, Repr

/-- Optional node metadata. -/
structure NodeMetadata (α : Type) where
  roomNumber : Option String := none
  description : Option String := none
  landmarks : Option (List String) := none
  doorWidth : Option α := none
deriving DecidableEq, Repr

/-- `MapNode`. -/
structure MapNode (α : Type) where
  id : String
  name : String
  type : NodeType
  coordinates : Coordinates α
  accessible : Bool
  connections : List String
  metadata : Option (NodeMetadata α) := none
deriving DecidableEq, Repr

/-- Optional edge metadata. -/
structure EdgeMetadata (α : Type) where
  width : Option α := none
  obstacles : Option (List String) := none
  hazards : Option (List String) := none
  temporaryClosure : Option Bool := none
  closureReason : Option String := none
deriving DecidableEq, Repr

/-- `MapEdge`.  The source fields `from` and `to` are Lean keywords and are
rendered as `fromId` and `toId`. -/
structure MapEdge (α : Type) where
  id : String
  fromId : String
  toId : String
  distance : α
  type : EdgeType
  accessible : Bool
  bidirectional : Bool
  metadata : Option (EdgeMetadata α) := none
deriving DecidableEq, Repr

/-- `MapAlert`. -/
structure MapAlert where
  id : String
  type : AlertType
  affectedNodes : List String
  affectedEdges : List String
  message : String
  severity : Severity
  startTime : Option String := none
  endTime : Option String := none
deriving DecidableEq, Repr

/-- `IndoorMap`.  `alerts` is an optional field in the source
(`alerts?: MapAlert[]`), modelled with `Option`. -/
structure IndoorMap (α : Type) where
  id : String
  buildingName : String
  buildingNumber : String
  floor : α
  floorName : String
  lastUpdated : String
  originLatitude : α
  originLongitude : α
  boundsWidth : α
  boundsHeight : α
  nodes : List (MapNode α)
  edges : List (MapEdge α)
  alerts : Option (List MapAlert) := none
deriving DecidableEq, Repr

/-- `RoutePreferences`. -/
structure RoutePreferences (α : Type) where
  avoidStairs : Bool
  preferElevators : Bool
  avoidCrowdedAreas : Bool
  maxDistance : Option α := none
deriving DecidableEq, Repr

/-- `RouteNode`: one waypoint of an assembled route.  `estimatedTimeFromStart`
is produced by `Math.round` and is therefore an integer. -/
structure RouteNode (α : Type) where
  nodeId : String
  name : String
  type : NodeType
  coordinates : Coordinates α
  distanceFromStart : α
  estimatedTimeFromStart : ℤ
deriving DecidableEq, Repr

/-- `NavigationInstruction`. -/
structure NavigationInstruction (α : Type) where
  id : String
  stepNumber : ℕ
  action : InstructionAction
  description : String
  spokenText : String
  distance : Option α := none
  landmark : Option String := none
  priority : Priority
deriving DecidableEq, Repr

/-- `Route`. -/
structure Route (α : Type) where
  id : String
  startNode : String
  endNode : String
  totalDistance : α
  estimatedTime : ℤ
  path : List (RouteNode α)
  instructions : List (NavigationInstruction α)
  createdAt : String
deriving DecidableEq, Repr

/-- Association-list rendering of a JavaScript `Map`: `set` replaces the
value of an existing key in place (JavaScript keeps the original insertion
position) and appends new keys at the end. -/
def setAssoc {β : Type} (l : List (String × β)) (k : String) (v : β) :
    List (String × β) :=
  if l.any (fun p => p.1 == k) then
    l.map (fun p => if p.1 == k then (k, v) else p)
  else
    l ++ [(k, v)]

/-- Association-list rendering of JavaScript `Map.get`. -/
def getAssoc {β : Type} (l : List (String × β)) (k : String) : Option β :=
  (l.find? (fun p => p.1 == k)).map (·.2)

/-- The external `uuidv4()` generator, modelled as a constant; no claim
depends on the generated id strings. -/
def uuidv4 : String := "00000000-0000-4000-8000-000000000000"

/-- The external clock `new Date().toISOString()`, modelled as a constant. -/
def isoNow : String := "1970-01-01T00:00:00.000Z"

variable {α : Type} [LinearOrderedField α] [FloorRing α]

/-! ## Instruction generator (the navigation instruction module) -/

/-- `STEP_LENGTH_METERS = 0.75`. -/
def STEP_LENGTH_METERS : α := 3 / 4

/-- `TURN_THRESHOLD = 30`. -/
def TURN_THRESHOLD : α := 30

/-- `SLIGHT_TURN_THRESHOLD = 60`. -/
def SLIGHT_TURN_THRESHOLD : α := 60

/-- `calculateAngle`: compass bearing from `a` to `b` in degrees, `0` being
the positive-Y axis, normalized into `[0, 360)` (for the genuine `atan2`).
The transcendental `Math.atan2(dx, dy) * (180 / Math.PI)` is abstracted as
the parameter `atan2deg` (applied to `dx` then `dy`, like `Math.atan2`);
real-number theorems instantiate it with `Complex.arg`. -/
def calculateAngle (atan2deg : α → α → α) (a b : Coordinates α) : α :=
  let dx := b.x - a.x
  let dy := b.y - a.y
  let angle := atan2deg dx dy
  if angle < 0 then angle + 360 else angle

/-- The result object `{ action, angleDiff }` of `calculateTurn`. -/
structure TurnResult (α : Type) where
  action : InstructionAction
  angleDiff : α
deriving DecidableEq, Repr

/-- `calculateTurn`: classify the turn at `current` between the incoming
segment `prev → current` and the outgoing segment `current → next`. -/
def calculateTurn (atan2deg : α → α → α) (prev current next : Coordinates α) :
    TurnResult α :=
  let incomingAngle := calculateAngle atan2deg prev current
  let outgoingAngle := calculateAngle atan2deg current next
  let d0 := outgoingAngle - incomingAngle
  let d1 := if d0 > 180 then d0 - 360 else d0
  let angleDiff := if d1 < -180 then d1 + 360 else d1
  let absAngle := |angleDiff|
  if absAngle < TURN_THRESHOLD then
    ⟨.go_straight, angleDiff⟩
  else if absAngle < SLIGHT_TURN_THRESHOLD then
    ⟨if angleDiff > 0 then .slight_right else .slight_left, angleDiff⟩
  else if absAngle < 150 then
    ⟨if angleDiff > 0 then .turn_right else .turn_left, angleDiff⟩
  else
    ⟨.turn_around, angleDiff⟩

/-- `metersToSteps`: meters to (rounded) steps. -/
def metersToSteps (meters : α) : ℤ :=
  jsRound (meters / STEP_LENGTH_METERS)

/-- `formatDistance`: speech-friendly distance phrase. -/
def formatDistance (meters : α) : String :=
  let steps := metersToSteps meters
  if steps ≤ 2 then "a couple of steps"
  else if steps ≤ 5 then "a few steps"
  else if steps ≤ 10 then s!"about {steps} steps"
  else if steps ≤ 20 then
    let rounded := jsRound ((steps : α) / 5) * 5
    s!"about {rounded} steps"
  else
    let roundedMeters := jsRound (meters / 5) * 5
    s!"about {roundedMeters} meters"

/-- The string literal of an `InstructionAction` in the TS union type. -/
def InstructionAction.lit : InstructionAction → String
  | .start => "start"
  | .walk_forward => "walk_forward"
  | .turn_left => "turn_left"
  | .turn_right => "turn_right"
  | .turn_around => "turn_around"
  | .slight_left => "slight_left"
  | .slight_right => "slight_right"
  | .go_straight => "go_straight"
  | .take_elevator => "take_elevator"
  | .take_stairs_up => "take_stairs_up"
  | .take_stairs_down => "take_stairs_down"
  | .enter_door => "enter_door"
  | .exit_door => "exit_door"
  | .arrive => "arrive"
  | .caution => "caution"

/-- `getLandmarkDescription`'s type-based `switch` (its fall-through part).
An empty `roomNumber` string is falsy in JavaScript, hence the `== ""`
check in the `door` case. -/
def landmarkTypeDefault (node : MapNode α) : Option String :=
  match node.type with
  | .door =>
    match node.metadata with
    | some md =>
      match md.roomNumber with
      | some rn => if rn == "" then some "a door" else some s!"door to room {rn}"
      | none => some "a door"
    | none => some "a door"
  | .elevator => some "the elevator"
  | .stairs => some "the stairs"
  | .restroom => some "the restroom"
  | .intersection => some "the intersection"
  | .exitNode => some "the exit"
  | _ => none

/-- `getLandmarkDescription`. -/
def getLandmarkDescription (node : MapNode α) : Option String :=
  match node.metadata with
  | some md =>
    match md.landmarks with
    | some (l :: _) => some l
    | _ => landmarkTypeDefault node
  | none => landmarkTypeDefault node

/-- `generateTurnSpoken`.  The `if (landmark)` test is JavaScript
truthiness: an empty landmark string takes the landmark-free phrasing. -/
def generateTurnSpoken (action : InstructionAction) (distance : α)
    (landmark : Option String) : String :=
  let distancePhrase := formatDistance distance
  let direction :=
    match action with
    | .turn_left => "turn left"
    | .turn_right => "turn right"
    | .slight_left => "bear slightly left"
    | .slight_right => "bear slightly right"
    | .go_straight => "continue straight"
    | .walk_forward => "continue straight"
    | .turn_around => "turn around"
    | a => (InstructionAction.lit a).replace "_" " "
  match landmark with
  | some lm =>
    if lm == "" then s!"Walk {distancePhrase}, then {direction}."
    else s!"Walk {distancePhrase}, then {direction} at {lm}."
  | none => s!"Walk {distancePhrase}, then {direction}."

/-- The direction table of `getCompassDirection`. -/
def compassDirections : List String :=
  ["north", "northeast", "east", "southeast",
   "south", "southwest", "west", "northwest"]

/-- `getCompassDirection`.  JavaScript `%` truncates toward zero; a negative
angle would index `directions[negative] = undefined`, which the template
string renders as `"undefined"` (the genuine pipeline only produces angles
in `[0, 360)`). -/
def getCompassDirection (angle : α) : String :=
  let index := Int.tmod (jsRound (angle / 45)) 8
  if 0 ≤ index then compassDirections.getD index.toNat "undefined"
  else "undefined"

/-- `getRelativeDirection`. -/
def getRelativeDirection (a b : Coordinates α) : String :=
  let dx := b.x - a.x
  if |dx| < 2 then "ahead"
  else if dx > 0 then "right" else "left"

/-- The node lookup `nodeMap` built (identically) by `findPath`,
`generateInstructions` and `buildRoute` callers:
`for (const node of map.nodes) nodeMap.set(node.id, node)`. -/
def buildNodeMap (map : IndoorMap α) : List (String × MapNode α) :=
  map.nodes.foldl (fun m n => setAssoc m n.id n) []

/-- `generateInstructions`: convert a route into spoken instructions.
The interior loop is rendered as a fold over the windows
`(path[i-1], path[i], path[i+1])` for `i = 1 .. path.length - 2`,
carrying the instruction list (reversed), the step counter and the
accumulated distance, exactly as the imperative loop does.  The source's
`segmentStartIndex` variable is written but never read and is omitted. -/
def generateInstructions (atan2deg : α → α → α) (route : Route α)
    (map : IndoorMap α) : List (NavigationInstruction α) :=
  let path := route.path
  if path.length < 2 then []
  else
    match path with
    | p0 :: p1 :: _ =>
      let nodeMap := buildNodeMap map
      let startInstrs : List (NavigationInstruction α) :=
        match getAssoc nodeMap p0.nodeId, getAssoc nodeMap p1.nodeId with
        | some startNode, some secondNode =>
          let startLandmark := getLandmarkDescription startNode
          let heading :=
            calculateAngle atan2deg startNode.coordinates secondNode.coordinates
          let compassDirection := getCompassDirection heading
          let sname := startNode.name
          let spoken :=
            match startLandmark with
            | some lm =>
              if lm == "" then s!"Starting navigation. Begin walking {compassDirection}."
              else s!"Starting navigation from {lm}. Begin walking {compassDirection}."
            | none => s!"Starting navigation. Begin walking {compassDirection}."
          [{ id := uuidv4, stepNumber := 1, action := .start,
             description := s!"Start navigation from {sname}. Head {compassDirection}.",
             spokenText := spoken, priority := .normal }]
        | _, _ => []
      let triples := (path.zip path.tail).zip path.tail.tail
      let stepAfterStart := 1 + startInstrs.length
      let folded := triples.foldl
        (fun (st : List (NavigationInstruction α) × ℕ × α) t =>
          let revInstrs := st.1
          let step := st.2.1
          let acc0 := st.2.2
          let prevP := t.1.1
          let currentP := t.1.2
          let nextP := t.2
          match getAssoc nodeMap prevP.nodeId, getAssoc nodeMap currentP.nodeId,
              getAssoc nodeMap nextP.nodeId with
          | some prevNode, some currentNode, some nextNode =>
            let segmentDistance := currentP.distanceFromStart - prevP.distanceFromStart
            let acc := acc0 + segmentDistance
            let turn := calculateTurn atan2deg prevNode.coordinates
              currentNode.coordinates nextNode.coordinates
            let isSignificantNode :=
              currentNode.type == .door || currentNode.type == .elevator ||
              currentNode.type == .stairs || currentNode.type == .intersection ||
              !(turn.action == .go_straight)
            if isSignificantNode then
              let landmark := getLandmarkDescription currentNode
              let dist := formatDistance acc
              let instruction : NavigationInstruction α :=
                if currentNode.type == .elevator then
                  { id := uuidv4, stepNumber := step, action := .take_elevator,
                    description := s!"Walk {dist} to the elevator.",
                    spokenText := s!"Walk {dist} to reach the elevator.",
                    distance := some acc, landmark := some "elevator",
                    priority := .important }
                else if currentNode.type == .stairs then
                  let goingUp := nextNode.coordinates.floor > currentNode.coordinates.floor
                  let dir := if goingUp then "up" else "down"
                  { id := uuidv4, stepNumber := step,
                    action := if goingUp then .take_stairs_up else .take_stairs_down,
                    description := s!"Walk {dist} to the stairs. Go {dir}.",
                    spokenText := s!"Walk {dist} to the stairs, then go {dir}.",
                    distance := some acc, landmark := some "stairs",
                    priority := .important }
                else if currentNode.type == .door then
                  let cname := currentNode.name
                  { id := uuidv4, stepNumber := step, action := .enter_door,
                    description := s!"Walk {dist} and enter through {cname}.",
                    spokenText := generateTurnSpoken turn.action acc landmark,
                    distance := some acc,
                    landmark := currentNode.metadata.bind (fun m => m.roomNumber),
                    priority := .normal }
                else
                  let words := (InstructionAction.lit turn.action).replace "_" " "
                  { id := uuidv4, stepNumber := step, action := turn.action,
                    description := s!"Walk {dist} and {words}.",
                    spokenText := generateTurnSpoken turn.action acc landmark,
                    distance := some acc, landmark := landmark,
                    priority := if turn.action == .turn_around then .important
                      else .normal }
              (instruction :: revInstrs, step + 1, 0)
            else
              (revInstrs, step, acc)
          | _, _, _ => (revInstrs, step, acc0))
        ([], stepAfterStart, 0)
      let finalInstrs : List (NavigationInstruction α) :=
        match path.reverse with
        | lastP :: secondLastP :: _ =>
          match getAssoc nodeMap lastP.nodeId, getAssoc nodeMap secondLastP.nodeId with
          | some lastNode, some secondLastNode =>
            let finalDistance :=
              lastP.distanceFromStart - secondLastP.distanceFromStart
            let acc := folded.2.2 + finalDistance
            let dist := formatDistance acc
            let landmark := getLandmarkDescription lastNode
            let roomNumber := lastNode.metadata.bind (fun m => m.roomNumber)
            let lname := lastNode.name
            let relDir :=
              getRelativeDirection secondLastNode.coordinates lastNode.coordinates
            let spoken :=
              match roomNumber with
              | some rn =>
                if rn == "" then s!"Walk {dist} to reach your destination."
                else s!"Walk {dist}. Your destination, room {rn}, will be on your {relDir}."
              | none => s!"Walk {dist} to reach your destination."
            [{ id := uuidv4, stepNumber := folded.2.1, action := .arrive,
               description := s!"Walk {dist} to arrive at {lname}.",
               spokenText := spoken, distance := some acc,
               landmark := roomNumber.or landmark, priority := .important }]
          | _, _ => []
        | _ => []
      startInstrs ++ folded.1.reverse ++ finalInstrs
    | _ => []

/-- Is the action one of the two mergeable "straight" actions of
`simplifyInstructions`? -/
def straightish (a : InstructionAction) : Bool :=
  a == .go_straight || a == .walk_forward

/-- The merge branch of `simplifyInstructions`: the previous instruction
keeps every field except the combined distance and the rewritten texts. -/
def mergeStraight (last ins : NavigationInstruction α) :
    NavigationInstruction α :=
  let combinedDistance := last.distance.getD 0 + ins.distance.getD 0
  let dist := formatDistance combinedDistance
  { last with
    distance := some combinedDistance,
    description := s!"Continue straight for {dist}.",
    spokenText := s!"Continue walking straight for {dist}." }

/-- Loop of `simplifyInstructions`.  The JavaScript pushes onto the end of
`simplified` and mutates its last element when merging; the accumulator is
kept reversed (most recent element first) and reversed at the end. -/
def simplifyGo (racc : List (NavigationInstruction α)) :
    List (NavigationInstruction α) → List (NavigationInstruction α)
  | [] => racc.reverse
  | ins :: rest =>
    match racc with
    | last :: others =>
      if straightish last.action && straightish ins.action then
        simplifyGo (mergeStraight last ins :: others) rest
      else
        simplifyGo (ins :: last :: others) rest
    | [] => simplifyGo [ins] rest

/-- `simplifyInstructions`: merge consecutive straight segments. -/
def simplifyInstructions (instructions : List (NavigationInstruction α)) :
    List (NavigationInstruction α) :=
  simplifyGo [] instructions

/-- The caution instruction inserted by `addHazardWarnings` for one alert
(`stepNumber` 0 is a placeholder, renumbered afterwards). -/
def cautionInstruction (alert : MapAlert) : NavigationInstruction α :=
  let msg := alert.message
  { id := uuidv4, stepNumber := 0, action := .caution,
    description := s!"Caution: {msg}",
    spokenText := s!"Caution ahead. {msg}",
    priority := if alert.severity == .critical then .critical else .important }

/-- JavaScript `Array.splice(i, 0, x)` clamps the index to the array length,
so the insertion always happens. -/
def spliceInsert (l : List (NavigationInstruction α)) (i : ℕ)
    (x : NavigationInstruction α) : List (NavigationInstruction α) :=
  l.insertIdx (min i l.length) x

/-- The renumbering pass of `addHazardWarnings`:
`result.forEach((ins, idx) => ins.stepNumber = idx + 1)`. -/
def renumberFrom (k : ℕ) :
    List (NavigationInstruction α) → List (NavigationInstruction α)
  | [] => []
  | ins :: rest => { ins with stepNumber := k } :: renumberFrom (k + 1) rest

/-- `addHazardWarnings`: insert caution instructions for every alert whose
affected-node list intersects the path, then renumber contiguously. -/
def addHazardWarnings (instructions : List (NavigationInstruction α))
    (map : IndoorMap α) (currentPath : List (RouteNode α)) :
    List (NavigationInstruction α) :=
  let pathNodeIds := currentPath.map (·.nodeId)
  let result := (map.alerts.getD []).foldl
    (fun res alert =>
      alert.affectedNodes.foldl
        (fun res nodeId =>
          if pathNodeIds.contains nodeId then
            match currentPath.findIdx? (fun n => n.nodeId == nodeId) with
            | some nodeIndex => spliceInsert res nodeIndex (cautionInstruction alert)
            | none => res
          else res)
        res)
    instructions
  renumberFrom 1 result

/-! ## Routing engine (`routing.ts`) -/

/-- `WALKING_SPEED_MPS = 1.2` meters per second. -/
def WALKING_SPEED_MPS : α := 12 / 10

/-- `preferences?.avoidStairs`: an absent preference object is falsy. -/
def prefAvoidStairs (p : Option (RoutePreferences α)) : Bool :=
  match p with
  | some q => q.avoidStairs
  | none => false

/-- `preferences?.preferElevators`. -/
def prefPreferElevators (p : Option (RoutePreferences α)) : Bool :=
  match p with
  | some q => q.preferElevators
  | none => false

/-- The adjacency-entry record `GraphEdge` of the routing module.  The
source field `to` is a Lean keyword and is rendered as `toId`. -/
structure GraphEdge (α : Type) where
  toId : String
  distance : α
  accessible : Bool
  edgeType : EdgeType
  isClosed : Bool
deriving DecidableEq, Repr

/-- `graph.get(k)` followed by `push(ge)`: appends to the adjacency list if
the key is present, no-op otherwise (the `if (fromEdges)` guard). -/
def pushGraphEdge (g : List (String × List (GraphEdge α))) (k : String)
    (ge : GraphEdge α) : List (String × List (GraphEdge α)) :=
  g.map (fun p => if p.1 == k then (p.1, p.2 ++ [ge]) else p)

/-- `buildGraph`: adjacency lists from the map data, applying the
avoid-stairs filter and computing the closed flag. -/
def buildGraph (map : IndoorMap α) (preferences : Option (RoutePreferences α)) :
    List (String × List (GraphEdge α)) :=
  let graph := map.nodes.foldl (fun g node => setAssoc g node.id []) []
  let closedEdges := (map.alerts.getD []).foldl
    (fun s alert => s ++ alert.affectedEdges) ([] : List String)
  map.edges.foldl
    (fun graph edge =>
      let isClosed := closedEdges.contains edge.id ||
        (match edge.metadata with
         | some md => md.temporaryClosure == some true
         | none => false) ||
        !edge.accessible
      if prefAvoidStairs preferences && edge.type == .stairs then graph
      else
        let graph := pushGraphEdge graph edge.fromId
          { toId := edge.toId, distance := edge.distance,
            accessible := edge.accessible, edgeType := edge.type,
            isClosed := isClosed }
        if edge.bidirectional then
          pushGraphEdge graph edge.toId
            { toId := edge.fromId, distance := edge.distance,
              accessible := edge.accessible, edgeType := edge.type,
              isClosed := isClosed }
        else graph)
    graph

/-- `heuristic`: Euclidean distance on `(x, y)` with the floor difference
folded in as a third coordinate worth 4 meters per floor.  `Math.sqrt` is
abstracted as the parameter `sqrt`; real-number theorems instantiate it
with `Real.sqrt`. -/
def heuristic (sqrt : α → α) (a b : Coordinates α) : α :=
  let dx := b.x - a.x
  let dy := b.y - a.y
  let dz := (b.floor - a.floor) * 4
  sqrt (dx * dx + dy * dy + dz * dz)

/-- The priority-queue record of the A* loop.  `gScore`/`fScore` live in
`WithTop α` because the source compares against (and can in principle
store) `Infinity`. -/
structure AStarNode (α : Type) where
  nodeId : String
  gScore : WithTop α
  fScore : WithTop α
  parent : Option String

/-- One step of the open-set scan for the lowest `fScore`: with no current
best the running `lowestFScore` is `Infinity` (`⊤`), so any node with a
smaller score is taken; otherwise a strict improvement replaces the
best. -/
def scanLowest (best : Option (AStarNode α)) (n : AStarNode α) :
    Option (AStarNode α) :=
  match best with
  | none => if n.fScore < ⊤ then some n else none
  | some b => if n.fScore < b.fScore then some n else best

/-- The open-set scan for the lowest `fScore`: the first strict improvement
wins. -/
def selectLowest (l : List (AStarNode α)) : Option (AStarNode α) :=
  l.foldl scanLowest none

/-- `openSet.set(n.nodeId, n)`: JavaScript `Map.set` keeps the position of
an existing key and appends new keys. -/
def setOpen (l : List (AStarNode α)) (n : AStarNode α) : List (AStarNode α) :=
  if l.any (fun m => m.nodeId == n.nodeId) then
    l.map (fun m => if m.nodeId == n.nodeId then n else m)
  else l ++ [n]

/-- The mutable trio `(openSet, cameFrom, gScores)` of the A* loop. -/
structure AStarState (α : Type) where
  openSet : List (AStarNode α)
  cameFrom : List (String × String)
  gScores : List (String × WithTop α)

/-- The body of the `for (const neighbor of neighbors)` loop of `findPath`:
skip closed edges (unless `avoidStairs` is set), skip closed-set nodes and
unknown nodes, then relax the edge. -/
def processNeighbor (sqrt : α → α) (preferences : Option (RoutePreferences α))
    (nodeMap : List (String × MapNode α)) (endNode : MapNode α)
    (closedSet : List String) (currentId : String)
    (st : AStarState α) (neighbor : GraphEdge α) : AStarState α :=
  if neighbor.isClosed && !prefAvoidStairs preferences then st
  else if closedSet.contains neighbor.toId then st
  else
    match getAssoc nodeMap neighbor.toId with
    | none => st
    | some neighborNode =>
      let edgeCost :=
        if prefPreferElevators preferences && neighbor.edgeType == .elevator then
          neighbor.distance * (8 / 10)
        else neighbor.distance
      let tentativeGScore :=
        (getAssoc st.gScores currentId).getD ⊤ + (edgeCost : WithTop α)
      if tentativeGScore < (getAssoc st.gScores neighbor.toId).getD ⊤ then
        let fScore := tentativeGScore +
          ((heuristic sqrt neighborNode.coordinates endNode.coordinates : α) :
            WithTop α)
        { openSet := setOpen st.openSet
            { nodeId := neighbor.toId, gScore := tentativeGScore,
              fScore := fScore, parent := some currentId },
          cameFrom := setAssoc st.cameFrom neighbor.toId currentId,
          gScores := setAssoc st.gScores neighbor.toId tentativeGScore }
      else st

/-- Path reconstruction: walk the predecessor map from the goal backwards,
prepending each id.  `while (currentId)` stops on `undefined` and on the
falsy empty string.  The JavaScript loop has no built-in bound; the `fuel`
argument is an upper bound on the walk length, proved sufficient wherever
the loop is entered. -/
def reconstructPath (cameFrom : List (String × String)) :
    ℕ → Option String → List String
  | _, none => []
  | 0, some _ => []
  | fuel + 1, some currentId =>
    if currentId == "" then []
    else reconstructPath cameFrom fuel (getAssoc cameFrom currentId) ++ [currentId]

/-- The `while (openSet.size > 0)` loop of `findPath`.  One fuel unit per
iteration; every non-final iteration moves one node into the closed set, so
the `map.nodes.length + 1` units supplied by `findPath` are sufficient
(proved where needed). -/
def astarLoop (sqrt : α → α) (preferences : Option (RoutePreferences α))
    (graph : List (String × List (GraphEdge α)))
    (nodeMap : List (String × MapNode α)) (endNodeId : String)
    (endNode : MapNode α) (reconFuel : ℕ) :
    ℕ → AStarState α → List String → Option (List String)
  | 0, _, _ => none
  | fuel + 1, st, closedSet =>
    if st.openSet.isEmpty then none
    else
      match selectLowest st.openSet with
      | none => none
      | some current =>
        if current.nodeId == endNodeId then
          some (reconstructPath st.cameFrom reconFuel (some endNodeId))
        else
          let openSet' := st.openSet.filter (fun m => !(m.nodeId == current.nodeId))
          let closedSet' := closedSet ++ [current.nodeId]
          let neighbors := (getAssoc graph current.nodeId).getD []
          let st' := neighbors.foldl
            (processNeighbor sqrt preferences nodeMap endNode closedSet'
              current.nodeId)
            { st with openSet := openSet' }
          astarLoop sqrt preferences graph nodeMap endNodeId endNode reconFuel
            fuel st' closedSet'

/-- The key `` `${from}-${to}` `` used by the edge lookups of `buildRoute`
and `validateRoute`. -/
def edgeKey (a b : String) : String := a ++ "-" ++ b

/-- The edge lookup built by `buildRoute` (and, id-valued but with exactly
the same keys and overwrite order, by `validateRoute`): both directions for
bidirectional edges, later edges overwrite earlier ones. -/
def buildEdgeMap (edges : List (MapEdge α)) : List (String × MapEdge α) :=
  edges.foldl
    (fun m edge =>
      let m := setAssoc m (edgeKey edge.fromId edge.toId) edge
      if edge.bidirectional then setAssoc m (edgeKey edge.toId edge.fromId) edge
      else m)
    []

/-- The node-walking loop of `buildRoute`, carrying the previous list entry
(the source reads `pathNodeIds[i - 1]` whether or not that node resolved),
the accumulated distance and the reversed output list. -/
def buildRouteGo (nodeMap : List (String × MapNode α))
    (edgeMap : List (String × MapEdge α)) :
    Option String → α → List (RouteNode α) → List String →
      List (RouteNode α) × α
  | _, total, acc, [] => (acc.reverse, total)
  | prev, total, acc, nodeId :: rest =>
    match getAssoc nodeMap nodeId with
    | none => buildRouteGo nodeMap edgeMap (some nodeId) total acc rest
    | some node =>
      let total :=
        match prev with
        | none => total
        | some prevNodeId =>
          match getAssoc edgeMap (edgeKey prevNodeId nodeId) with
          | some edge => total + edge.distance
          | none => total
      let rn : RouteNode α :=
        { nodeId := node.id, name := node.name, type := node.type,
          coordinates := node.coordinates, distanceFromStart := total,
          estimatedTimeFromStart := jsRound (total / WALKING_SPEED_MPS) }
      buildRouteGo nodeMap edgeMap (some nodeId) total (rn :: acc) rest

/-- `buildRoute`: assemble a `Route` from a node-id sequence.  On an empty
sequence the JavaScript `pathNodeIds[0]` is `undefined`; the sequences
passed in are never empty, and the `getD ""` default is immaterial. -/
def buildRoute (map : IndoorMap α) (pathNodeIds : List String)
    (nodeMap : List (String × MapNode α)) : Route α :=
  let edgeMap := buildEdgeMap map.edges
  let result := buildRouteGo nodeMap edgeMap none 0 [] pathNodeIds
  { id := uuidv4,
    startNode := (pathNodeIds.head?).getD "",
    endNode := (pathNodeIds.getLast?).getD "",
    totalDistance := result.2,
    estimatedTime := jsRound (result.2 / WALKING_SPEED_MPS),
    path := result.1,
    instructions := [],
    createdAt := isoNow }

/-- `findPath`: A* search from `startNodeId` to `endNodeId`. -/
def findPath (sqrt : α → α) (map : IndoorMap α)
    (startNodeId endNodeId : String)
    (preferences : Option (RoutePreferences α)) : Option (Route α) :=
  let graph := buildGraph map preferences
  let nodeMap := buildNodeMap map
  match getAssoc nodeMap startNodeId, getAssoc nodeMap endNodeId with
  | some startNode, some endNode =>
    let startAStarNode : AStarNode α :=
      { nodeId := startNodeId, gScore := ((0 : α) : WithTop α),
        fScore := ((heuristic sqrt startNode.coordinates endNode.coordinates : α) :
          WithTop α),
        parent := none }
    let st : AStarState α :=
      { openSet := [startAStarNode], cameFrom := [],
        gScores := [(startNodeId, ((0 : α) : WithTop α))] }
    (astarLoop sqrt preferences graph nodeMap endNodeId endNode
        (map.nodes.length + 1) (map.nodes.length + 1) st []).map
      (fun path => buildRoute map path nodeMap)
  | _, _ => none

/-- `validateRoute`: re-check a route against the current alerts.  The
source fills both closed sets in a single alert loop and builds an
id-valued edge map with the same keys as `buildEdgeMap`; membership and
lookup results are identical.  The `if (edgeId && ...)` test is
JavaScript truthiness: a missing key *and* an empty-string edge id both
skip the closed-set check. -/
def validateRoute (map : IndoorMap α) (route : Route α) : Bool :=
  let closedEdges := (map.alerts.getD []).foldl
    (fun s a => s ++ a.affectedEdges) ([] : List String)
  let closedNodes := (map.alerts.getD []).foldl
    (fun s a => s ++ a.affectedNodes) ([] : List String)
  if route.path.any (fun n => closedNodes.contains n.nodeId) then false
  else
    let edgeIdMap := buildEdgeMap map.edges
    if (route.path.zip route.path.tail).any
        (fun p =>
          match getAssoc edgeIdMap (edgeKey p.1.nodeId p.2.nodeId) with
          | some edge => !(edge.id == "") && closedEdges.contains edge.id
          | none => false)
    then false
    else true

/-! ## Concrete test fixtures (rational instances) -/

namespace Fix

/-- Stand-in for `Math.sqrt` in the rational fixtures.  The structural
theorems below hold for every `sqrt` parameter, so any concrete choice
exercises them. -/
def qsqrt : ℚ → ℚ := fun q => q

/-- A rational-coordinate node on floor 0. -/
def node (id : String) (t : NodeType) (x y : ℚ) : MapNode ℚ :=
  { id := id, name := id, type := t, coordinates := ⟨x, y, 0⟩,
    accessible := true, connections := [] }

/-- A bidirectional accessible edge. -/
def edge (id f t : String) (d : ℚ) (ty : EdgeType) : MapEdge ℚ :=
  { id := id, fromId := f, toId := t, distance := d, type := ty,
    accessible := true, bidirectional := true }

/-- A minimal map around the given nodes, edges and alerts. -/
def mkMap (nodes : List (MapNode ℚ)) (edges : List (MapEdge ℚ))
    (alerts : Option (List MapAlert)) : IndoorMap ℚ :=
  { id := "m", buildingName := "bldg", buildingNumber := "1", floor := 0,
    floorName := "ground", lastUpdated := "", originLatitude := 0,
    originLongitude := 0, boundsWidth := 100, boundsHeight := 100,
    nodes := nodes, edges := edges, alerts := alerts }

/-- Three collinear nodes `a - b - c` joined by two 10 m hallway edges. -/
def lineMap : IndoorMap ℚ :=
  mkMap [node "a" .room 0 0, node "b" .hallway 0 10, node "c" .room 0 20]
    [edge "e1" "a" "b" 10 .hallway, edge "e2" "b" "c" 10 .hallway] none

/-- The alert on node `b` used by `alertNodeMap`. -/
def bAlert : MapAlert :=
  { id := "al", type := .hazard, affectedNodes := ["b"], affectedEdges := [],
    message := "wet floor", severity := .high }

/-- `lineMap` with an alert whose affected-node set contains the interior
node `b`. -/
def alertNodeMap : IndoorMap ℚ :=
  { lineMap with alerts := some [bAlert] }

/-- Two nodes joined by a single 10 m elevator edge. -/
def elevMap : IndoorMap ℚ :=
  mkMap [node "a" .room 0 0, node "b" .room 0 10]
    [edge "e1" "a" "b" 10 .elevator] none

/-- The alert closing edge `e1` used by `closedEdgeMap`. -/
def e1Alert : MapAlert :=
  { id := "al", type := .closure, affectedNodes := [], affectedEdges := ["e1"],
    message := "closed", severity := .high }

/-- `lineMap` with an alert closing edge `e1` (the only way from `a`). -/
def closedEdgeMap : IndoorMap ℚ :=
  { lineMap with alerts := some [e1Alert] }

/-- `a - b` by stairs only, then `b - c` by hallway. -/
def stairsMap : IndoorMap ℚ :=
  mkMap [node "a" .room 0 0, node "b" .hallway 0 10, node "c" .room 0 20]
    [edge "e1" "a" "b" 10 .stairs, edge "e2" "b" "c" 10 .hallway] none

/-- Avoid-stairs preferences. -/
def prefsAvoid : Option (RoutePreferences ℚ) :=
  some { avoidStairs := true, preferElevators := false,
         avoidCrowdedAreas := false }

/-- Prefer-elevators preferences. -/
def prefsElev : Option (RoutePreferences ℚ) :=
  some { avoidStairs := false, preferElevators := true,
         avoidCrowdedAreas := false }

/-- A one-waypoint route (for the short-path behaviour of the
instruction generator). -/
def singleRoute : Route ℚ :=
  { id := "r", startNode := "a", endNode := "a", totalDistance := 0,
    estimatedTime := 0,
    path := [{ nodeId := "a", name := "a", type := .room,
               coordinates := ⟨0, 0, 0⟩, distanceFromStart := 0,
               estimatedTimeFromStart := 0 }],
    instructions := [], createdAt := "" }

end Fix

/-! ## Derived notions used by the specification statements -/

/-- One expansion step the A* loop is willing to take: an adjacency entry
of the built graph from `u` to `v` that the closed-edge guard does not skip
and whose target resolves in the node map. -/
def ViableStep (graph : List (String × List (GraphEdge α)))
    (nodeMap : List (String × MapNode α))
    (preferences : Option (RoutePreferences α)) (u v : String) : Prop :=
  ∃ ge ∈ (getAssoc graph u).getD [], ge.toId = v ∧
    ¬(ge.isClosed = true ∧ prefAvoidStairs preferences = false) ∧
    (getAssoc nodeMap v).isSome = true

instance {graph : List (String × List (GraphEdge α))}
    {nodeMap : List (String × MapNode α)}
    {preferences : Option (RoutePreferences α)} {u v : String} :
    Decidable (ViableStep graph nodeMap preferences u v) := by
  unfold ViableStep; infer_instance

/-- Reachability along viable expansion steps. -/
def ViableReach (graph : List (String × List (GraphEdge α)))
    (nodeMap : List (String × MapNode α))
    (preferences : Option (RoutePreferences α)) : String → String → Prop :=
  Relation.ReflTransGen (ViableStep graph nodeMap preferences)

/-- A predecessor chain recorded in `cameFrom`: the head has no
predecessor, consecutive elements are linked in `cameFrom` and joined by a
viable step.  The list is the chain in walking order (head first). -/
inductive CameChain (graph : List (String × List (GraphEdge α)))
    (nodeMap : List (String × MapNode α))
    (preferences : Option (RoutePreferences α))
    (cameFrom : List (String × String)) : String → List String → Prop
  | base (v : String) (h : getAssoc cameFrom v = none) :
      CameChain graph nodeMap preferences cameFrom v [v]
  | step (u v : String) (p : List String)
      (hc : CameChain graph nodeMap preferences cameFrom u p)
      (hl : getAssoc cameFrom v = some u)
      (hs : ViableStep graph nodeMap preferences u v) :
      CameChain graph nodeMap preferences cameFrom v (p ++ [v])

/-- Every recorded predecessor entry `(v, u)` of the `cameFrom` map is a
viable expansion step `u → v` (the relaxation records an entry only after
passing the closed-edge guard and resolving the target node). -/
def CameFromInv (graph : List (String × List (GraphEdge α)))
    (nodeMap : List (String × MapNode α))
    (preferences : Option (RoutePreferences α))
    (cameFrom : List (String × String)) : Prop :=
  ∀ q ∈ cameFrom, ViableStep graph nodeMap preferences q.2 q.1

/-- The node ids currently in the open set. -/
def openIds (st : AStarState α) : List String :=
  st.openSet.map (fun n => n.nodeId)

/-- The invariant maintained by the A* loop across iterations (stated at
the top of an iteration, between `closedSet` and the mutable state). -/
structure AStarInv (graph : List (String × List (GraphEdge α)))
    (nodeMap : List (String × MapNode α))
    (preferences : Option (RoutePreferences α)) (startId endId : String)
    (st : AStarState α) (closedSet : List String) : Prop where
  open_nodup : (openIds st).Nodup
  closed_nodup : closedSet.Nodup
  open_closed_disj : ∀ x ∈ openIds st, x ∉ closedSet
  open_keys : ∀ x ∈ openIds st, (getAssoc nodeMap x).isSome = true
  closed_keys : ∀ x ∈ closedSet, (getAssoc nodeMap x).isSome = true
  start_mem : startId ∈ openIds st ∨ startId ∈ closedSet
  end_not_closed : endId ∉ closedSet
  g_start : getAssoc st.gScores startId = some ((0 : α) : WithTop α)
  g_entries : ∀ kv ∈ st.gScores, ∃ a : α, kv.2 = ((a : α) : WithTop α) ∧
    0 ≤ a ∧ (kv.1 ∈ openIds st ∨ kv.1 ∈ closedSet)
  open_g : ∀ x ∈ openIds st, (getAssoc st.gScores x).isSome = true
  open_f : ∀ n ∈ st.openSet, n.fScore ≠ ⊤
  closed_succ : ∀ u ∈ closedSet, ∀ vv : String,
    ViableStep graph nodeMap preferences u vv →
    vv ∈ openIds st ∨ vv ∈ closedSet
  chains : ∀ vv : String, vv ∈ openIds st ∨ vv ∈ closedSet →
    ∃ p : List String, CameChain graph nodeMap preferences st.cameFrom vv p ∧
      p.head? = some startId ∧ p.Nodup ∧ ∀ x ∈ p.dropLast, x ∈ closedSet

/-- The invariant maintained across the neighbor-relaxation fold of one
iteration: `closedSet` here is the set already extended with the node being
expanded (`cur`). -/
structure MidInv (graph : List (String × List (GraphEdge α)))
    (nodeMap : List (String × MapNode α))
    (preferences : Option (RoutePreferences α)) (startId cur : String)
    (closedSet : List String) (st : AStarState α) : Prop where
  open_nodup : (openIds st).Nodup
  open_closed_disj : ∀ x ∈ openIds st, x ∉ closedSet
  open_keys : ∀ x ∈ openIds st, (getAssoc nodeMap x).isSome = true
  start_mem : startId ∈ openIds st ∨ startId ∈ closedSet
  g_start : getAssoc st.gScores startId = some ((0 : α) : WithTop α)
  g_entries : ∀ kv ∈ st.gScores, ∃ a : α, kv.2 = ((a : α) : WithTop α) ∧
    0 ≤ a ∧ (kv.1 ∈ openIds st ∨ kv.1 ∈ closedSet)
  open_g : ∀ x ∈ openIds st, (getAssoc st.gScores x).isSome = true
  open_f : ∀ n ∈ st.openSet, n.fScore ≠ ⊤
  g_cur : ∃ a : α, getAssoc st.gScores cur = some ((a : α) : WithTop α) ∧ 0 ≤ a
  chains : ∀ vv : String, vv ∈ openIds st ∨ vv ∈ closedSet →
    ∃ p : List String, CameChain graph nodeMap preferences st.cameFrom vv p ∧
      p.head? = some startId ∧ p.Nodup ∧ ∀ x ∈ p.dropLast, x ∈ closedSet

/-- The initial priority-queue entry `findPath` creates for the start
node. -/
def startAStar (sqrt : α → α) (startNodeId : String)
    (startNode endNode : MapNode α) : AStarNode α :=
  { nodeId := startNodeId, gScore := ((0 : α) : WithTop α),
    fScore := ((heuristic sqrt startNode.coordinates endNode.coordinates : α) :
      WithTop α),
    parent := none }

/-- The initial mutable state of the A* loop. -/
def initState (sqrt : α → α) (startNodeId : String)
    (startNode endNode : MapNode α) : AStarState α :=
  { openSet := [startAStar sqrt startNodeId startNode endNode],
    cameFrom := [],
    gScores := [(startNodeId, ((0 : α) : WithTop α))] }

/-- The closed flag `buildGraph` computes for a map edge. -/
def edgeClosedFlag (map : IndoorMap α) (e : MapEdge α) : Bool :=
  (((map.alerts.getD []).foldl (fun s alert => s ++ alert.affectedEdges)
      ([] : List String)).contains e.id ||
    (match e.metadata with
     | some md => md.temporaryClosure == some true
     | none => false) || !e.accessible)

/-- The forward adjacency record `buildGraph` pushes for a map edge. -/
def forwardGE (map : IndoorMap α) (e : MapEdge α) : GraphEdge α :=
  { toId := e.toId, distance := e.distance, accessible := e.accessible,
    edgeType := e.type, isClosed := edgeClosedFlag map e }

/-- The mirrored adjacency record `buildGraph` pushes for a bidirectional
map edge. -/
def reverseGE (map : IndoorMap α) (e : MapEdge α) : GraphEdge α :=
  { toId := e.fromId, distance := e.distance, accessible := e.accessible,
    edgeType := e.type, isClosed := edgeClosedFlag map e }

/-- The distance `buildRoute` adds for one consecutive pair: the distance
of the edge its lookup finds, `0` when the lookup fails. -/
def lookupDist (edgeMap : List (String × MapEdge α)) (a b : String) : α :=
  match getAssoc edgeMap (edgeKey a b) with
  | some e => e.distance
  | none => 0

/-- Sum of `lookupDist` over the consecutive pairs of a node sequence. -/
def pathDistSum (edgeMap : List (String × MapEdge α)) : List String → α
  | a :: b :: rest => lookupDist edgeMap a b + pathDistSum edgeMap (b :: rest)
  | _ => 0

/-- The claim's notion of per-pair distance: the connecting edge's distance
with the 0.8 elevator discount applied when `preferElevators` is set. -/
def discountedLookupDist (preferences : Option (RoutePreferences α))
    (edgeMap : List (String × MapEdge α)) (a b : String) : α :=
  match getAssoc edgeMap (edgeKey a b) with
  | some e =>
    if prefPreferElevators preferences = true ∧ e.type = .elevator then
      e.distance * (8 / 10)
    else e.distance
  | none => 0

/-- Sum of `discountedLookupDist` over consecutive pairs. -/
def discountedPathSum (preferences : Option (RoutePreferences α))
    (edgeMap : List (String × MapEdge α)) : List String → α
  | a :: b :: rest =>
    discountedLookupDist preferences edgeMap a b +
      discountedPathSum preferences edgeMap (b :: rest)
  | _ => 0

/-- Turn classification exactly as the specification words it: classify
the normalized signed bearing difference by absolute magnitude, the sign
of the difference deciding the side. -/
def specTurnAction (d : α) : InstructionAction :=
  if |d| < 30 then .go_straight
  else if |d| < 60 then (if d > 0 then .slight_right else .slight_left)
  else if |d| < 150 then (if d > 0 then .turn_right else .turn_left)
  else .turn_around

/-- The node-id sequence whose consecutive pairs `buildRouteGo` charges
for, given the previous-node register it carries: with no previous node
the sequence itself, otherwise the previous node prepended. -/
def prevCons (prev : Option String) (p : List String) : List String :=
  match prev with
  | none => p
  | some u => u :: p

/-- How many caution insertions one alert causes on a path: one per entry
of its affected-node list that lies on the path (duplicates each count). -/
def alertPathHits (pathNodeIds : List String) (alert : MapAlert) : ℕ :=
  (alert.affectedNodes.filter (fun nodeId => pathNodeIds.contains nodeId)).length

/-- No two adjacent instructions are both mergeable-straight: the shape
`simplifyInstructions` leaves behind, on which it acts as the identity. -/
def NoAdjStraight (l : List (NavigationInstruction α)) : Prop :=
  List.Chain' (fun a b => (straightish a.action && straightish b.action) = false) l

/-! ## Concrete test fixtures (real instances and degenerate ids) -/

namespace Fix

/-- A map whose only node has the empty string as id (legal in the data
model; JavaScript treats `""` as falsy in `while (currentId)`). -/
def emptyIdMap : IndoorMap ℚ :=
  mkMap [node "" .room 0 0] [] none

/-- A real-coordinate node on floor 0. -/
def nodeR (id : String) (t : NodeType) (x y : ℝ) : MapNode ℝ :=
  { id := id, name := id, type := t, coordinates := ⟨x, y, 0⟩,
    accessible := true, connections := [] }

/-- A bidirectional accessible real-distance edge. -/
def edgeR (id f t : String) (d : ℝ) (ty : EdgeType) : MapEdge ℝ :=
  { id := id, fromId := f, toId := t, distance := d, type := ty,
    accessible := true, bidirectional := true }

/-- A minimal real-coordinate map around the given nodes and edges. -/
def mkMapR (nodes : List (MapNode ℝ)) (edges : List (MapEdge ℝ)) :
    IndoorMap ℝ :=
  { id := "m", buildingName := "bldg", buildingNumber := "1", floor := 0,
    floorName := "ground", lastUpdated := "", originLatitude := 0,
    originLongitude := 0, boundsWidth := 1000, boundsHeight := 1000,
    nodes := nodes, edges := edges, alerts := none }

/-- Two nodes 100 m apart in coordinates, joined by an edge whose declared
distance is only 1 m: the heuristic (100) far exceeds the cheapest path
cost (1). -/
def farMap : IndoorMap ℝ :=
  mkMapR [nodeR "a" .room 0 0, nodeR "b" .room 100 0]
    [edgeR "e1" "a" "b" 1 .hallway]

end Fix

/-! ## Association-list lemmas -/

theorem getAssoc_mem {β : Type} {l : List (String × β)} {k : String} {v : β}
    (h : getAssoc l k = some v) : (k, v) ∈ l := by
  unfold getAssoc at h
  cases hf : l.find? (fun p => p.1 == k) with
  | none => rw [hf] at h; exact absurd h (by simp)
  | some q =>
    rw [hf] at h
    have hq := List.find?_some hf
    have hm := List.mem_of_find?_eq_some hf
    obtain ⟨q1, q2⟩ := q
    have h1 : q1 = k := by simpa using hq
    have h2 : q2 = v := by simpa using h
    subst h1
    subst h2
    exact hm

theorem getAssoc_key_mem {β : Type} {l : List (String × β)} {k : String}
    {v : β} (h : getAssoc l k = some v) : k ∈ l.map Prod.fst :=
  List.mem_map.2 ⟨(k, v), getAssoc_mem h, rfl⟩

theorem getAssoc_eq_none {β : Type} {l : List (String × β)} {k : String}
    (h : ∀ p ∈ l, p.1 ≠ k) : getAssoc l k = none := by
  unfold getAssoc
  rw [List.find?_eq_none.2 (fun p hp => by simpa using h p hp)]
  rfl

theorem find?_map_replaceKey {β : Type} (l : List (String × β)) (k k' : String)
    (v : β) :
    (l.map (fun p => if p.1 == k then (k, v) else p)).find?
        (fun p => p.1 == k') =
      if k' = k then ((l.find? (fun p => p.1 == k)).map (fun _ => (k, v)))
      else l.find? (fun p => p.1 == k') := by
  induction l with
  | nil =>
    by_cases hk : k' = k
    · rw [List.map_nil, if_pos hk]
      rfl
    · rw [List.map_nil, if_neg hk]
  | cons p t ih =>
    rw [List.map_cons]
    by_cases hpk : (p.1 == k) = true
    · rw [if_pos hpk]
      by_cases hk : k' = k
      · have h1 : ((k, v).1 == k') = true := by simp [hk]
        simp only [List.find?_cons, h1, hpk, if_pos hk]
        rfl
      · have h1 : ((k, v).1 == k') = false :=
          beq_eq_false_iff_ne.2 (fun h => hk h.symm)
        have hpke : p.1 = k := by simpa using hpk
        have h2 : (p.1 == k') = false :=
          beq_eq_false_iff_ne.2 (fun h => hk ((hpke ▸ h : k = k')).symm)
        simp only [List.find?_cons, h1, h2, ih, if_neg hk]
    · rw [if_neg hpk]
      have hpkf : (p.1 == k) = false := by
        cases h : (p.1 == k) with
        | true => exact absurd h hpk
        | false => rfl
      by_cases hpq : (p.1 == k') = true
      · have hk : ¬k' = k := fun h => hpk (h ▸ hpq)
        simp only [List.find?_cons, hpq, if_neg hk]
      · have hpqf : (p.1 == k') = false := by
          cases h : (p.1 == k') with
          | true => exact absurd h hpq
          | false => rfl
        simp only [List.find?_cons, hpqf, ih]
        by_cases hk : k' = k
        · simp only [if_pos hk, List.find?_cons, hpkf]
        · simp only [if_neg hk]

theorem getAssoc_setAssoc {β : Type} (l : List (String × β)) (k k' : String)
    (v : β) :
    getAssoc (setAssoc l k v) k' =
      if k' = k then some v else getAssoc l k' := by
  unfold setAssoc getAssoc
  by_cases hc : l.any (fun p => p.1 == k)
  · rw [if_pos hc, find?_map_replaceKey]
    by_cases hk' : k' = k
    · rw [if_pos hk', if_pos hk']
      obtain ⟨q, hq, hpq⟩ := List.any_eq_true.1 hc
      have hs : (l.find? (fun p => p.1 == k)).isSome :=
        List.find?_isSome.2 ⟨q, hq, hpq⟩
      obtain ⟨q', hq'⟩ := Option.isSome_iff_exists.1 hs
      rw [hq']
      rfl
    · rw [if_neg hk', if_neg hk']
  · rw [if_neg hc, List.find?_append]
    have hnone : l.find? (fun p => p.1 == k) = none := by
      rw [List.find?_eq_none]
      intro p hp hpk
      exact hc (List.any_eq_true.2 ⟨p, hp, hpk⟩)
    by_cases hk' : k' = k
    · subst hk'
      rw [hnone]
      simp
    · rw [if_neg hk']
      have h1 : (([(k, v)] : List (String × β)).find?
          (fun p => p.1 == k')) = none := by
        have : ((k, v).1 == k') = false :=
          beq_eq_false_iff_ne.2 (fun h => hk' h.symm)
        simp [List.find?_cons, this]
      rw [h1]
      cases h2 : l.find? (fun p => p.1 == k') <;> simp

/-! ## Open-set and reconstruction lemmas -/

theorem selectLowest_mem {l : List (AStarNode α)} {n : AStarNode α}
    (h : selectLowest l = some n) : n ∈ l := by
  unfold selectLowest at h
  suffices H : ∀ (t : List (AStarNode α)) (acc : Option (AStarNode α))
      (n : AStarNode α), t.foldl scanLowest acc = some n →
      acc = some n ∨ n ∈ t by
    rcases H l none n h with h1 | h2
    · exact absurd h1 (by simp)
    · exact h2
  intro t
  induction t with
  | nil => intro acc n h; exact Or.inl h
  | cons m t ih =>
    intro acc n h
    rw [List.foldl_cons] at h
    rcases ih _ n h with h1 | h2
    · cases acc with
      | none =>
        simp only [scanLowest] at h1
        by_cases hf : m.fScore < ⊤
        · rw [if_pos hf] at h1
          cases h1
          exact Or.inr (List.mem_cons_self _ _)
        · rw [if_neg hf] at h1
          exact absurd h1 (by simp)
      | some b =>
        simp only [scanLowest] at h1
        by_cases hf : m.fScore < b.fScore
        · rw [if_pos hf] at h1
          cases h1
          exact Or.inr (List.mem_cons_self _ _)
        · rw [if_neg hf] at h1
          exact Or.inl h1
    · exact Or.inr (List.mem_cons_of_mem _ h2)

theorem selectLowest_isSome {l : List (AStarNode α)} (hne : l ≠ [])
    (hf : ∀ n ∈ l, n.fScore ≠ ⊤) : (selectLowest l).isSome = true := by
  unfold selectLowest
  have Hsome : ∀ (t : List (AStarNode α)) (b : AStarNode α),
      (t.foldl scanLowest (some b)).isSome = true := by
    intro t
    induction t with
    | nil => intro b; rfl
    | cons m t ih =>
      intro b
      rw [List.foldl_cons]
      simp only [scanLowest]
      by_cases h : m.fScore < b.fScore
      · simp only [if_pos h]
        exact ih _
      · simp only [if_neg h]
        exact ih _
  cases l with
  | nil => exact absurd rfl hne
  | cons m t =>
    rw [List.foldl_cons]
    have hm : m.fScore < ⊤ := lt_top_iff_ne_top.2 (hf m (List.mem_cons_self _ _))
    simp only [scanLowest, if_pos hm]
    exact Hsome t m

theorem setOpen_ids (l : List (AStarNode α)) (n : AStarNode α) :
    (setOpen l n).map (fun m => m.nodeId) =
      if l.any (fun m => m.nodeId == n.nodeId) then l.map (fun m => m.nodeId)
      else l.map (fun m => m.nodeId) ++ [n.nodeId] := by
  unfold setOpen
  by_cases hc : l.any (fun m => m.nodeId == n.nodeId)
  · rw [if_pos hc, if_pos hc, List.map_map]
    apply List.map_congr_left
    intro m _
    by_cases hm : (m.nodeId == n.nodeId) = true
    · have : m.nodeId = n.nodeId := by simpa using hm
      simp [Function.comp, hm, this]
    · simp [Function.comp, hm]
  · rw [if_neg hc, if_neg hc, List.map_append]
    rfl

theorem ids_filter (l : List (AStarNode α)) (c : String) :
    (l.filter (fun m => !(m.nodeId == c))).map (fun m => m.nodeId) =
      (l.map (fun m => m.nodeId)).filter (fun x => !(x == c)) := by
  induction l with
  | nil => rfl
  | cons m t ih =>
    by_cases h : (m.nodeId == c) = true
    · simp only [List.filter_cons, List.map_cons, h]
      simpa using ih
    · have h' : (m.nodeId == c) = false := by
        cases hb : (m.nodeId == c) with
        | true => exact absurd hb h
        | false => rfl
      simp only [List.filter_cons, List.map_cons, h']
      simp only [Bool.not_false, if_pos, List.map_cons]
      rw [ih]

/-! ## Predecessor-chain lemmas -/

theorem cameChain_last {graph : List (String × List (GraphEdge α))}
    {nodeMap : List (String × MapNode α)}
    {preferences : Option (RoutePreferences α)}
    {cameFrom : List (String × String)} {v : String} {p : List String}
    (h : CameChain graph nodeMap preferences cameFrom v p) :
    p.getLast? = some v := by
  induction h with
  | base w hw => rfl
  | step u w p hc hl hs ih => exact List.getLast?_concat _

theorem cameChain_ne_nil {graph : List (String × List (GraphEdge α))}
    {nodeMap : List (String × MapNode α)}
    {preferences : Option (RoutePreferences α)}
    {cameFrom : List (String × String)} {v : String} {p : List String}
    (h : CameChain graph nodeMap preferences cameFrom v p) : p ≠ [] := by
  induction h with
  | base w hw => simp
  | step u w p hc hl hs ih => simp

theorem cameChain_head {graph : List (String × List (GraphEdge α))}
    {nodeMap : List (String × MapNode α)}
    {preferences : Option (RoutePreferences α)}
    {cameFrom : List (String × String)} {v : String} {p : List String}
    (h : CameChain graph nodeMap preferences cameFrom v p) :
    ∃ s, p.head? = some s ∧ getAssoc cameFrom s = none := by
  induction h with
  | base w hw => exact ⟨w, rfl, hw⟩
  | step u w p hc hl hs ih =>
    obtain ⟨s, hs1, hs2⟩ := ih
    refine ⟨s, ?_, hs2⟩
    rw [List.head?_append, hs1]
    rfl

theorem cameChain_chain' {graph : List (String × List (GraphEdge α))}
    {nodeMap : List (String × MapNode α)}
    {preferences : Option (RoutePreferences α)}
    {cameFrom : List (String × String)} {v : String} {p : List String}
    (h : CameChain graph nodeMap preferences cameFrom v p) :
    List.Chain' (ViableStep graph nodeMap preferences) p := by
  induction h with
  | base w hw => simp
  | step u w p hc hl hs ih =>
    refine List.Chain'.append ih (by simp) ?_
    intro x hx y hy
    rw [cameChain_last hc] at hx
    simp only [Option.mem_def, Option.some.injEq] at hx
    simp only [List.head?_cons, Option.mem_def, Option.some.injEq] at hy
    rw [← hx, ← hy]
    exact hs

theorem cameChain_stable {graph : List (String × List (GraphEdge α))}
    {nodeMap : List (String × MapNode α)}
    {preferences : Option (RoutePreferences α)}
    {cameFrom cameFrom' : List (String × String)} {v : String}
    {p : List String}
    (h : CameChain graph nodeMap preferences cameFrom v p)
    (hstable : ∀ x ∈ p, getAssoc cameFrom' x = getAssoc cameFrom x) :
    CameChain graph nodeMap preferences cameFrom' v p := by
  induction h with
  | base w hw => exact .base w ((hstable w (by simp)).trans hw)
  | step u w p hc hl hs ih =>
    refine .step u w p (ih ?_) ((hstable w (by simp)).trans hl) hs
    intro x hx
    exact hstable x (List.mem_append_left _ hx)

theorem reconstructPath_none (cameFrom : List (String × String)) (fuel : ℕ) :
    reconstructPath cameFrom fuel none = [] := by
  cases fuel <;> rfl

theorem reconstructPath_eval {graph : List (String × List (GraphEdge α))}
    {nodeMap : List (String × MapNode α)}
    {preferences : Option (RoutePreferences α)}
    {cameFrom : List (String × String)} {v : String} {p : List String}
    (h : CameChain graph nodeMap preferences cameFrom v p)
    (hne : ∀ x ∈ p, ¬x = "") :
    ∀ fuel, p.length ≤ fuel → reconstructPath cameFrom fuel (some v) = p := by
  induction h with
  | base w hw =>
    intro fuel hfuel
    cases fuel with
    | zero => simp at hfuel
    | succ f =>
      unfold reconstructPath
      have hw' : ¬(w == "") = true := by
        simpa using hne w (by simp)
      rw [if_neg hw', hw, reconstructPath_none]
      rfl
  | step u w p hc hl hs ih =>
    intro fuel hfuel
    cases fuel with
    | zero => simp at hfuel
    | succ f =>
      unfold reconstructPath
      have hw' : ¬(w == "") = true := by
        simpa using hne w (by simp)
      rw [if_neg hw', hl]
      rw [ih (fun x hx => hne x (List.mem_append_left _ hx)) f ?_]
      rw [List.length_append] at hfuel
      simpa using hfuel

/-! ## Relaxation-step lemmas -/

theorem mem_setAssoc {β : Type} {l : List (String × β)} {k : String} {v : β}
    {q : String × β} (h : q ∈ setAssoc l k v) :
    q = (k, v) ∨ (q ∈ l ∧ q.1 ≠ k) := by
  unfold setAssoc at h
  by_cases hc : l.any (fun p => p.1 == k)
  · rw [if_pos hc] at h
    rcases List.mem_map.1 h with ⟨p, hp, hq⟩
    by_cases hpk : (p.1 == k) = true
    · rw [if_pos hpk] at hq
      exact Or.inl hq.symm
    · rw [if_neg hpk] at hq
      subst hq
      exact Or.inr ⟨hp, by simpa using hpk⟩
  · rw [if_neg hc] at h
    rcases List.mem_append.1 h with h1 | h2
    · refine Or.inr ⟨h1, ?_⟩
      intro hk
      exact hc (List.any_eq_true.2 ⟨q, h1, by simpa using hk⟩)
    · simp only [List.mem_singleton] at h2
      exact Or.inl h2

theorem mem_setOpen {l : List (AStarNode α)} {n q : AStarNode α}
    (h : q ∈ setOpen l n) : q = n ∨ q ∈ l := by
  unfold setOpen at h
  by_cases hc : l.any (fun m => m.nodeId == n.nodeId)
  · rw [if_pos hc] at h
    rcases List.mem_map.1 h with ⟨m, hm, hq⟩
    by_cases hmk : (m.nodeId == n.nodeId) = true
    · rw [if_pos hmk] at hq
      exact Or.inl hq.symm
    · rw [if_neg hmk] at hq
      subst hq
      exact Or.inr hm
  · rw [if_neg hc] at h
    rcases List.mem_append.1 h with h1 | h2
    · exact Or.inr h1
    · simp only [List.mem_singleton] at h2
      exact Or.inl h2

theorem setOpen_ids_superset {l : List (AStarNode α)} {n : AStarNode α}
    {x : String} (h : x ∈ l.map (fun m => m.nodeId)) :
    x ∈ (setOpen l n).map (fun m => m.nodeId) := by
  rw [setOpen_ids]
  by_cases hc : l.any (fun m => m.nodeId == n.nodeId)
  · rw [if_pos hc]
    exact h
  · rw [if_neg hc]
    exact List.mem_append_left _ h

theorem setOpen_ids_self (l : List (AStarNode α)) (n : AStarNode α) :
    n.nodeId ∈ (setOpen l n).map (fun m => m.nodeId) := by
  rw [setOpen_ids]
  by_cases hc : l.any (fun m => m.nodeId == n.nodeId)
  · rw [if_pos hc]
    obtain ⟨m, hm, hmn⟩ := List.any_eq_true.1 hc
    have hmn' : m.nodeId = n.nodeId := by simpa using hmn
    exact hmn' ▸ List.mem_map.2 ⟨m, hm, rfl⟩
  · rw [if_neg hc]
    exact List.mem_append_right _ (by simp)

theorem setOpen_ids_sub {l : List (AStarNode α)} {n : AStarNode α}
    {x : String} (h : x ∈ (setOpen l n).map (fun m => m.nodeId)) :
    x ∈ l.map (fun m => m.nodeId) ∨ x = n.nodeId := by
  rw [setOpen_ids] at h
  by_cases hc : l.any (fun m => m.nodeId == n.nodeId)
  · rw [if_pos hc] at h
    exact Or.inl h
  · rw [if_neg hc] at h
    rcases List.mem_append.1 h with h1 | h2
    · exact Or.inl h1
    · simp only [List.mem_singleton] at h2
      exact Or.inr h2

theorem setOpen_ids_nodup {l : List (AStarNode α)} {n : AStarNode α}
    (h : (l.map (fun m => m.nodeId)).Nodup) :
    ((setOpen l n).map (fun m => m.nodeId)).Nodup := by
  rw [setOpen_ids]
  by_cases hc : l.any (fun m => m.nodeId == n.nodeId)
  · rw [if_pos hc]
    exact h
  · rw [if_neg hc]
    rw [List.nodup_append]
    refine ⟨h, by simp, ?_⟩
    intro x hx hx2
    simp only [List.mem_singleton] at hx2
    subst hx2
    rcases List.mem_map.1 hx with ⟨m, hm, hmx⟩
    exact absurd (List.any_eq_true.2 ⟨m, hm, by simp [hmx]⟩) hc

theorem mem_dropLast_or_getLast :
    ∀ {p : List String} {v : String}, p.getLast? = some v →
      ∀ x ∈ p, x ∈ p.dropLast ∨ x = v := by
  intro p
  induction p with
  | nil => intro v hv x hx; simp at hx
  | cons a t ih =>
    intro v hv x hx
    cases t with
    | nil =>
      simp only [List.getLast?_singleton, Option.some.injEq] at hv
      simp only [List.mem_singleton] at hx
      exact Or.inr (hx.trans hv)
    | cons b t2 =>
      have hv' : (b :: t2).getLast? = some v := by
        simpa [List.getLast?_cons_cons] using hv
      rcases List.mem_cons.1 hx with rfl | hx2
      · left
        simp [List.dropLast_cons₂]
      · rcases ih hv' x hx2 with h1 | h2
        · left
          simp only [List.dropLast_cons₂, List.mem_cons]
          exact Or.inr h1
        · exact Or.inr h2

theorem processNeighbor_step (sqrt : α → α)
    (preferences : Option (RoutePreferences α))
    (graph : List (String × List (GraphEdge α)))
    (nodeMap : List (String × MapNode α)) (endNode : MapNode α)
    (startId cur : String) (closedSet : List String)
    (hdist : ∀ u, ∀ e ∈ (getAssoc graph u).getD [], 0 ≤ e.distance)
    (hcur : cur ∈ closedSet)
    (ge : GraphEdge α) (hge : ge ∈ (getAssoc graph cur).getD [])
    (st : AStarState α)
    (hInv : MidInv graph nodeMap preferences startId cur closedSet st) :
    MidInv graph nodeMap preferences startId cur closedSet
        (processNeighbor sqrt preferences nodeMap endNode closedSet cur st ge) ∧
      (∀ x, x ∈ openIds st →
        x ∈ openIds (processNeighbor sqrt preferences nodeMap endNode closedSet
          cur st ge)) ∧
      (¬(ge.isClosed = true ∧ prefAvoidStairs preferences = false) →
        (getAssoc nodeMap ge.toId).isSome = true →
        ge.toId ∈ openIds (processNeighbor sqrt preferences nodeMap endNode
          closedSet cur st ge) ∨ ge.toId ∈ closedSet) := by
  by_cases hskip : (ge.isClosed && !prefAvoidStairs preferences) = true
  · have hres : processNeighbor sqrt preferences nodeMap endNode closedSet cur
        st ge = st := by
      unfold processNeighbor
      rw [if_pos hskip]
    rw [hres]
    refine ⟨hInv, fun x hx => hx, ?_⟩
    intro hno _
    exfalso
    rw [Bool.and_eq_true] at hskip
    exact hno ⟨hskip.1, by simpa using hskip.2⟩
  · by_cases hcs : closedSet.contains ge.toId = true
    · have hres : processNeighbor sqrt preferences nodeMap endNode closedSet
          cur st ge = st := by
        unfold processNeighbor
        rw [if_neg hskip, if_pos hcs]
      rw [hres]
      exact ⟨hInv, fun x hx => hx, fun _ _ => Or.inr (by simpa using hcs)⟩
    · cases hnm : getAssoc nodeMap ge.toId with
      | none =>
        have hres : processNeighbor sqrt preferences nodeMap endNode closedSet
            cur st ge = st := by
          unfold processNeighbor
          rw [if_neg hskip, if_neg hcs, hnm]
        rw [hres]
        refine ⟨hInv, fun x hx => hx, ?_⟩
        intro _ hsome
        exact absurd hsome (by simp)
      | some nn =>
        obtain ⟨a, hga, ha0⟩ := hInv.g_cur
        have hguard : ¬(ge.isClosed = true ∧
            prefAvoidStairs preferences = false) := by
          rintro ⟨h1, h2⟩
          apply hskip
          rw [h1, h2]
          rfl
        have htoid_not_closed : ge.toId ∉ closedSet := by
          intro hmem
          exact hcs (by simpa using hmem)
        have htoid_ne_cur : ge.toId ≠ cur := fun h => htoid_not_closed (h ▸ hcur)
        set eCost : α := (if prefPreferElevators preferences &&
            ge.edgeType == EdgeType.elevator then ge.distance * (8 / 10)
          else ge.distance) with heC
        have hcost0 : 0 ≤ eCost := by
          rw [heC]
          by_cases hpe : (prefPreferElevators preferences &&
              ge.edgeType == EdgeType.elevator) = true
          · rw [if_pos hpe]
            have hd := hdist cur ge hge
            have h810 : (0 : α) ≤ 8 / 10 := by norm_num
            exact mul_nonneg hd h810
          · rw [if_neg hpe]
            exact hdist cur ge hge
        set tent : WithTop α :=
          (getAssoc st.gScores cur).getD ⊤ + ((eCost : α) : WithTop α)
          with htent
        have htent2 : tent = (((a + eCost : α)) : WithTop α) := by
          rw [htent, hga]
          simp [← WithTop.coe_add]
        have key : processNeighbor sqrt preferences nodeMap endNode closedSet
            cur st ge =
            if tent < (getAssoc st.gScores ge.toId).getD ⊤ then
              { openSet := setOpen st.openSet
                  { nodeId := ge.toId, gScore := tent,
                    fScore := tent + ((heuristic sqrt nn.coordinates
                      endNode.coordinates : α) : WithTop α),
                    parent := some cur },
                cameFrom := setAssoc st.cameFrom ge.toId cur,
                gScores := setAssoc st.gScores ge.toId tent }
            else st := by
          unfold processNeighbor
          rw [if_neg hskip, if_neg hcs, hnm]
        rw [key]
        by_cases hrel : tent < (getAssoc st.gScores ge.toId).getD ⊤
        · rw [if_pos hrel]
          have htoid_ne_start : ge.toId ≠ startId := by
            intro h
            rw [h, hInv.g_start] at hrel
            rw [htent2, Option.getD_some] at hrel
            have : a + eCost < 0 := by exact_mod_cast hrel
            exact absurd this (not_lt.2 (add_nonneg ha0 hcost0))
          constructor
          · refine ⟨?_, ?_, ?_, ?_, ?_, ?_, ?_, ?_, ?_, ?_⟩
            · exact setOpen_ids_nodup hInv.open_nodup
            · intro x hx
              rcases setOpen_ids_sub hx with h1 | h2
              · exact hInv.open_closed_disj x h1
              · exact h2 ▸ htoid_not_closed
            · intro x hx
              rcases setOpen_ids_sub hx with h1 | h2
              · exact hInv.open_keys x h1
              · rw [h2, hnm]
                rfl
            · rcases hInv.start_mem with h1 | h2
              · exact Or.inl (setOpen_ids_superset h1)
              · exact Or.inr h2
            · show getAssoc (setAssoc st.gScores ge.toId tent) startId = _
              rw [getAssoc_setAssoc,
                if_neg (fun h => htoid_ne_start h.symm)]
              exact hInv.g_start
            · intro kv hkv
              rcases mem_setAssoc hkv with h1 | ⟨h2, h3⟩
              · refine ⟨a + eCost, ?_, add_nonneg ha0 hcost0, ?_⟩
                · rw [h1]
                  exact htent2
                · rw [h1]
                  exact Or.inl (setOpen_ids_self _ _)
              · obtain ⟨b, hb, hb0, hbmem⟩ := hInv.g_entries kv h2
                refine ⟨b, hb, hb0, ?_⟩
                rcases hbmem with hm1 | hm2
                · exact Or.inl (setOpen_ids_superset hm1)
                · exact Or.inr hm2
            · intro x hx
              show (getAssoc (setAssoc st.gScores ge.toId tent) x).isSome = true
              rw [getAssoc_setAssoc]
              by_cases hx2 : x = ge.toId
              · rw [if_pos hx2]
                rfl
              · rw [if_neg hx2]
                rcases setOpen_ids_sub hx with h1 | h2
                · exact hInv.open_g x h1
                · exact absurd h2 hx2
            · intro n hn
              rcases mem_setOpen hn with h1 | h2
              · rw [h1]
                show tent + _ ≠ ⊤
                rw [htent2, ← WithTop.coe_add]
                exact WithTop.coe_ne_top
              · exact hInv.open_f n h2
            · refine ⟨a, ?_, ha0⟩
              show getAssoc (setAssoc st.gScores ge.toId tent) cur = _
              rw [getAssoc_setAssoc, if_neg (fun h => htoid_ne_cur h.symm)]
              exact hga
            ·
              intro vv hvv
              by_cases hveq : vv = ge.toId
              · subst hveq
                obtain ⟨pc, hpcChain, hpcHead, hpcNodup, hpcDrop⟩ :=
                  hInv.chains cur (Or.inr hcur)
                have hpcLast := cameChain_last hpcChain
                have hpcAll : ∀ x ∈ pc, x ∈ closedSet := by
                  intro x hx
                  rcases mem_dropLast_or_getLast hpcLast x hx with h1 | h2
                  · exact hpcDrop x h1
                  · exact h2 ▸ hcur
                have hstable : ∀ x ∈ pc,
                    getAssoc (setAssoc st.cameFrom ge.toId cur) x =
                      getAssoc st.cameFrom x := by
                  intro x hx
                  rw [getAssoc_setAssoc, if_neg]
                  intro h
                  exact htoid_not_closed (h ▸ hpcAll x hx)
                have hchain' := cameChain_stable hpcChain hstable
                refine ⟨pc ++ [ge.toId], ?_, ?_, ?_, ?_⟩
                · refine CameChain.step cur ge.toId pc hchain' ?_ ?_
                  · show getAssoc (setAssoc st.cameFrom ge.toId cur) ge.toId =
                      some cur
                    rw [getAssoc_setAssoc, if_pos rfl]
                  · exact ⟨ge, hge, rfl, hguard, by rw [hnm]; rfl⟩
                · rw [List.head?_append, hpcHead]
                  rfl
                · rw [List.nodup_append]
                  refine ⟨hpcNodup, by simp, ?_⟩
                  intro x hx hx2
                  simp only [List.mem_singleton] at hx2
                  subst hx2
                  exact htoid_not_closed (hpcAll _ hx)
                · rw [List.dropLast_concat]
                  exact hpcAll
              · have hvv' : vv ∈ openIds st ∨ vv ∈ closedSet := by
                  rcases hvv with h1 | h2
                  · rcases setOpen_ids_sub h1 with h3 | h4
                    · exact Or.inl h3
                    · exact absurd h4 hveq
                  · exact Or.inr h2
                obtain ⟨pv, hpvChain, hpvHead, hpvNodup, hpvDrop⟩ :=
                  hInv.chains vv hvv'
                have hpvLast := cameChain_last hpvChain
                have hstable : ∀ x ∈ pv,
                    getAssoc (setAssoc st.cameFrom ge.toId cur) x =
                      getAssoc st.cameFrom x := by
                  intro x hx
                  rw [getAssoc_setAssoc, if_neg]
                  intro h
                  subst h
                  rcases mem_dropLast_or_getLast hpvLast _ hx with h1 | h2
                  · exact htoid_not_closed (hpvDrop _ h1)
                  · exact hveq h2.symm
                exact ⟨pv, cameChain_stable hpvChain hstable, hpvHead,
                  hpvNodup, hpvDrop⟩
          · constructor
            · intro x hx
              exact setOpen_ids_superset hx
            · intro _ _
              exact Or.inl (setOpen_ids_self _ _)
        · rw [if_neg hrel]
          refine ⟨hInv, fun x hx => hx, ?_⟩
          intro _ _
          have htfin : tent < ⊤ := by
            rw [htent2]
            exact WithTop.coe_lt_top _
          cases hw : getAssoc st.gScores ge.toId with
          | none =>
            exfalso
            apply hrel
            rw [hw]
            simpa using htfin
          | some w =>
            have hmem := getAssoc_mem hw
            obtain ⟨b, hb, hb0, hbmem⟩ := hInv.g_entries _ hmem
            exact hbmem

theorem processNeighbor_fold (sqrt : α → α)
    (preferences : Option (RoutePreferences α))
    (graph : List (String × List (GraphEdge α)))
    (nodeMap : List (String × MapNode α)) (endNode : MapNode α)
    (startId cur : String) (closedSet : List String)
    (hdist : ∀ u, ∀ e ∈ (getAssoc graph u).getD [], 0 ≤ e.distance)
    (hcur : cur ∈ closedSet) :
    ∀ (neighbors : List (GraphEdge α)),
      (∀ ge ∈ neighbors, ge ∈ (getAssoc graph cur).getD []) →
      ∀ (st : AStarState α),
      MidInv graph nodeMap preferences startId cur closedSet st →
      MidInv graph nodeMap preferences startId cur closedSet
          (neighbors.foldl (processNeighbor sqrt preferences nodeMap endNode
            closedSet cur) st) ∧
        (∀ x, x ∈ openIds st →
          x ∈ openIds (neighbors.foldl (processNeighbor sqrt preferences
            nodeMap endNode closedSet cur) st)) ∧
        (∀ ge ∈ neighbors,
          ¬(ge.isClosed = true ∧ prefAvoidStairs preferences = false) →
          (getAssoc nodeMap ge.toId).isSome = true →
          ge.toId ∈ openIds (neighbors.foldl (processNeighbor sqrt preferences
            nodeMap endNode closedSet cur) st) ∨ ge.toId ∈ closedSet) := by
  intro neighbors
  induction neighbors with
  | nil =>
    intro _ st hInv
    exact ⟨hInv, fun x hx => hx, by simp⟩
  | cons ge rest ih =>
    intro hnb st hInv
    rw [List.foldl_cons]
    obtain ⟨hInv1, hmono1, hstep1⟩ := processNeighbor_step sqrt preferences
      graph nodeMap endNode startId cur closedSet hdist hcur ge
      (hnb ge (List.mem_cons_self _ _)) st hInv
    obtain ⟨hInv2, hmono2, hstep2⟩ :=
      ih (fun e he => hnb e (List.mem_cons_of_mem _ he)) _ hInv1
    refine ⟨hInv2, fun x hx => hmono2 x (hmono1 x hx), ?_⟩
    intro e he hno hsome
    rcases List.mem_cons.1 he with rfl | he2
    · rcases hstep1 hno hsome with h1 | h2
      · exact Or.inl (hmono2 _ h1)
      · exact Or.inr h2
    · exact hstep2 e he2 hno hsome

theorem getAssoc_isSome_key {β : Type} {l : List (String × β)} {k : String}
    (h : (getAssoc l k).isSome = true) : k ∈ l.map Prod.fst := by
  obtain ⟨v, hv⟩ := Option.isSome_iff_exists.1 h
  exact getAssoc_key_mem hv

theorem nodup_length_le {l l' : List String} (hn : l.Nodup)
    (hs : ∀ x ∈ l, x ∈ l') : l.length ≤ l'.length := by
  calc l.length = l.toFinset.card := (List.toFinset_card_of_nodup hn).symm
    _ ≤ l'.toFinset.card := Finset.card_le_card (by
        intro x hx
        rw [List.mem_toFinset] at hx
        rw [List.mem_toFinset]
        exact hs x hx)
    _ ≤ l'.length := l'.toFinset_card_le

/-- The central A* loop lemma: under the loop invariant, a returned node
sequence is a nonempty viable chain from `startId` to `endNodeId` through
known nodes (soundness), and if `endNodeId` is viable-reachable from some
discovered node the loop returns a sequence (completeness). -/
theorem astarLoop_spec (sqrt : α → α)
    (preferences : Option (RoutePreferences α))
    (graph : List (String × List (GraphEdge α)))
    (nodeMap : List (String × MapNode α)) (endNodeId : String)
    (endNode : MapNode α) (reconFuel : ℕ) (startId : String)
    (hdist : ∀ u, ∀ e ∈ (getAssoc graph u).getD [], 0 ≤ e.distance)
    (hkeys_ne : ∀ x, (getAssoc nodeMap x).isSome = true → ¬x = "")
    (hrecon : nodeMap.length < reconFuel) :
    ∀ (fuel : ℕ) (st : AStarState α) (closedSet : List String),
      AStarInv graph nodeMap preferences startId endNodeId st closedSet →
      nodeMap.length < closedSet.length + fuel →
      (∀ p, astarLoop sqrt preferences graph nodeMap endNodeId endNode
          reconFuel fuel st closedSet = some p →
        p ≠ [] ∧ p.head? = some startId ∧ p.getLast? = some endNodeId ∧
          List.Chain' (ViableStep graph nodeMap preferences) p ∧
          (∀ x ∈ p, (getAssoc nodeMap x).isSome = true) ∧ p.Nodup) ∧
      ((∃ w, (w ∈ openIds st ∨ w ∈ closedSet) ∧
          ViableReach graph nodeMap preferences w endNodeId) →
        (astarLoop sqrt preferences graph nodeMap endNodeId endNode reconFuel
          fuel st closedSet).isSome = true) := by
  intro fuel
  induction fuel with
  | zero =>
    intro st closedSet hInv hme
    exfalso
    have h1 : closedSet.length ≤ nodeMap.length := by
      have := nodup_length_le hInv.closed_nodup
        (fun x hx => getAssoc_isSome_key (hInv.closed_keys x hx))
      simpa using this
    omega
  | succ f ih =>
    intro st closedSet hInv hme
    by_cases hempty : st.openSet.isEmpty = true
    · have hloop : astarLoop sqrt preferences graph nodeMap endNodeId endNode
          reconFuel (f + 1) st closedSet = none := by
        unfold astarLoop
        rw [if_pos hempty]
      constructor
      · intro p hp
        rw [hloop] at hp
        exact absurd hp (by simp)
      · rintro ⟨w, hw, hreach⟩
        exfalso
        have hopen : st.openSet = [] := by
          simpa using hempty
        have hoi : openIds st = [] := by
          simp [openIds, hopen]
        have hwcl : w ∈ closedSet := by
          rcases hw with h1 | h2
          · rw [hoi] at h1
            simp at h1
          · exact h2
        have hall : ∀ z, Relation.ReflTransGen
            (ViableStep graph nodeMap preferences) w z → z ∈ closedSet := by
          intro z hz
          induction hz with
          | refl => exact hwcl
          | tail hz1 hstep ihz =>
            rcases hInv.closed_succ _ ihz _ hstep with h1 | h2
            · rw [hoi] at h1
              simp at h1
            · exact h2
        exact hInv.end_not_closed (hall endNodeId hreach)
    · have hne : st.openSet ≠ [] := by
        intro h
        rw [h] at hempty
        exact hempty rfl
      have hsel := selectLowest_isSome hne hInv.open_f
      obtain ⟨current, hcursel⟩ := Option.isSome_iff_exists.1 hsel
      have hcurmem := selectLowest_mem hcursel
      have hcuropen : current.nodeId ∈ openIds st :=
        List.mem_map.2 ⟨current, hcurmem, rfl⟩
      by_cases hend : (current.nodeId == endNodeId) = true
      · have hendid : current.nodeId = endNodeId := by simpa using hend
        have hloop : astarLoop sqrt preferences graph nodeMap endNodeId endNode
            reconFuel (f + 1) st closedSet =
            some (reconstructPath st.cameFrom reconFuel (some endNodeId)) := by
          simp only [astarLoop, if_neg hempty, hcursel, if_pos hend]
        obtain ⟨p, hChain, hHead, hNodup, hDrop⟩ :=
          hInv.chains endNodeId (Or.inl (hendid ▸ hcuropen))
        have hLast := cameChain_last hChain
        have hpne := cameChain_ne_nil hChain
        have hpmem : ∀ x ∈ p, (getAssoc nodeMap x).isSome = true := by
          intro x hx
          rcases mem_dropLast_or_getLast hLast x hx with h1 | h2
          · exact hInv.closed_keys x (hDrop x h1)
          · subst h2
            exact hInv.open_keys _ (hendid ▸ hcuropen)
        have hnz : ∀ x ∈ p, ¬x = "" := fun x hx => hkeys_ne x (hpmem x hx)
        have hplen : p.length ≤ reconFuel := by
          have h1 : p.dropLast.length ≤ closedSet.length :=
            nodup_length_le (hNodup.sublist (List.dropLast_sublist p)) hDrop
          have h2 : closedSet.length ≤ nodeMap.length := by
            have := nodup_length_le hInv.closed_nodup
              (fun x hx => getAssoc_isSome_key (hInv.closed_keys x hx))
            simpa using this
          have h3 : p.length = p.dropLast.length + 1 := by
            rw [List.length_dropLast]
            have := List.length_pos.2 hpne
            omega
          omega
        have hrp := reconstructPath_eval hChain hnz reconFuel hplen
        rw [hloop]
        constructor
        · intro q hq
          rw [hrp] at hq
          have hq' : p = q := by simpa using hq
          subst hq'
          exact ⟨hpne, hHead, hLast, cameChain_chain' hChain, hpmem, hNodup⟩
        · intro _
          rfl
      · have hendne : current.nodeId ≠ endNodeId := by simpa using hend
        have hcnc : current.nodeId ∉ closedSet :=
          hInv.open_closed_disj _ hcuropen
        have hloop : astarLoop sqrt preferences graph nodeMap endNodeId endNode
            reconFuel (f + 1) st closedSet =
            astarLoop sqrt preferences graph nodeMap endNodeId endNode
              reconFuel f
              (((getAssoc graph current.nodeId).getD []).foldl
                (processNeighbor sqrt preferences nodeMap endNode
                  (closedSet ++ [current.nodeId]) current.nodeId)
                { st with openSet := st.openSet.filter (fun m => !(m.nodeId == current.nodeId)) })
              (closedSet ++ [current.nodeId]) := by
          simp only [astarLoop, if_neg hempty, hcursel, if_neg hend]
        have hcur_closed' : current.nodeId ∈ closedSet ++ [current.nodeId] :=
          List.mem_append_right _ (by simp)
        have hids0 : openIds { st with openSet := st.openSet.filter (fun m => !(m.nodeId == current.nodeId)) } =
            (openIds st).filter (fun x => !(x == current.nodeId)) :=
          ids_filter _ _
        have hmemids0 : ∀ x, x ∈ openIds { st with openSet := st.openSet.filter (fun m => !(m.nodeId == current.nodeId)) } ↔
            (x ∈ openIds st ∧ x ≠ current.nodeId) := by
          intro x
          rw [hids0, List.mem_filter]
          constructor
          · rintro ⟨h1, h2⟩
            exact ⟨h1, by simpa using h2⟩
          · rintro ⟨h1, h2⟩
            exact ⟨h1, by simpa using h2⟩
        have hclosed' : ∀ x, x ∈ closedSet ++ [current.nodeId] ↔
            (x ∈ closedSet ∨ x = current.nodeId) := by
          intro x
          rw [List.mem_append]
          simp
        have hMid0 : MidInv graph nodeMap preferences startId current.nodeId
            (closedSet ++ [current.nodeId])
            { st with openSet := st.openSet.filter (fun m => !(m.nodeId == current.nodeId)) } := by
          refine ⟨?_, ?_, ?_, ?_, ?_, ?_, ?_, ?_, ?_, ?_⟩
          · rw [hids0]
            exact hInv.open_nodup.filter _
          · intro x hx
            obtain ⟨h1, h2⟩ := (hmemids0 x).1 hx
            rw [hclosed']
            rintro (h3 | h3)
            · exact hInv.open_closed_disj x h1 h3
            · exact h2 h3
          · intro x hx
            exact hInv.open_keys x ((hmemids0 x).1 hx).1
          · rcases hInv.start_mem with h1 | h2
            · by_cases hsc : startId = current.nodeId
              · exact Or.inr ((hclosed' _).2 (Or.inr hsc))
              · exact Or.inl ((hmemids0 _).2 ⟨h1, hsc⟩)
            · exact Or.inr ((hclosed' _).2 (Or.inl h2))
          · exact hInv.g_start
          · intro kv hkv
            obtain ⟨a, ha, ha0, hamem⟩ := hInv.g_entries kv hkv
            refine ⟨a, ha, ha0, ?_⟩
            rcases hamem with h1 | h2
            · by_cases hkc : kv.1 = current.nodeId
              · exact Or.inr ((hclosed' _).2 (Or.inr hkc))
              · exact Or.inl ((hmemids0 _).2 ⟨h1, hkc⟩)
            · exact Or.inr ((hclosed' _).2 (Or.inl h2))
          · intro x hx
            exact hInv.open_g x ((hmemids0 x).1 hx).1
          · intro n hn
            exact hInv.open_f n (List.mem_of_mem_filter hn)
          · have hsome := hInv.open_g _ hcuropen
            obtain ⟨w, hw⟩ := Option.isSome_iff_exists.1 hsome
            obtain ⟨a, ha, ha0, _⟩ := hInv.g_entries _ (getAssoc_mem hw)
            have ha' : w = ((a : α) : WithTop α) := ha
            exact ⟨a, by rw [hw, ha'], ha0⟩
          · intro vv hvv
            have hvv' : vv ∈ openIds st ∨ vv ∈ closedSet := by
              rcases hvv with h1 | h2
              · exact Or.inl ((hmemids0 _).1 h1).1
              · rcases (hclosed' _).1 h2 with h3 | h3
                · exact Or.inr h3
                · exact Or.inl (h3 ▸ hcuropen)
            obtain ⟨pv, hc1, hc2, hc3, hc4⟩ := hInv.chains vv hvv'
            exact ⟨pv, hc1, hc2, hc3,
              fun x hx => List.mem_append_left _ (hc4 x hx)⟩
        obtain ⟨hMid', hmono, hsucc⟩ := processNeighbor_fold sqrt preferences
          graph nodeMap endNode startId current.nodeId
          (closedSet ++ [current.nodeId]) hdist hcur_closed'
          ((getAssoc graph current.nodeId).getD []) (fun e he => he) _ hMid0
        have hInv' : AStarInv graph nodeMap preferences startId endNodeId
            (((getAssoc graph current.nodeId).getD []).foldl
              (processNeighbor sqrt preferences nodeMap endNode
                (closedSet ++ [current.nodeId]) current.nodeId)
              { st with openSet := st.openSet.filter (fun m => !(m.nodeId == current.nodeId)) })
            (closedSet ++ [current.nodeId]) := by
          refine ⟨hMid'.open_nodup, ?_, hMid'.open_closed_disj,
            hMid'.open_keys, ?_, hMid'.start_mem, ?_, hMid'.g_start,
            hMid'.g_entries, hMid'.open_g, hMid'.open_f, ?_, hMid'.chains⟩
          · rw [List.nodup_append]
            refine ⟨hInv.closed_nodup, by simp, ?_⟩
            intro x hx hx2
            simp only [List.mem_singleton] at hx2
            subst hx2
            exact hcnc hx
          · intro x hx
            rcases (hclosed' _).1 hx with h1 | h2
            · exact hInv.closed_keys x h1
            · exact h2 ▸ hInv.open_keys _ hcuropen
          · intro hx
            rcases (hclosed' _).1 hx with h1 | h2
            · exact hInv.end_not_closed h1
            · exact hendne h2.symm
          · intro u hu vv hv
            rcases (hclosed' _).1 hu with h1 | h2
            · rcases hInv.closed_succ u h1 vv hv with h3 | h4
              · by_cases hvc : vv = current.nodeId
                · exact Or.inr ((hclosed' _).2 (Or.inr hvc))
                · exact Or.inl (hmono vv ((hmemids0 _).2 ⟨h3, hvc⟩))
              · exact Or.inr ((hclosed' _).2 (Or.inl h4))
            · obtain ⟨ge, hge, hto, hguard, hsome⟩ := h2 ▸ hv
              rcases hsucc ge hge hguard (by rw [hto]; exact hsome)
                with h3 | h4
              · exact Or.inl (hto ▸ h3)
              · exact Or.inr (hto ▸ h4)
        have hmeas' : nodeMap.length <
            (closedSet ++ [current.nodeId]).length + f := by
          rw [List.length_append]
          simp only [List.length_singleton]
          omega
        obtain ⟨hsound, hcomp⟩ := ih _ _ hInv' hmeas'
        rw [hloop]
        refine ⟨hsound, ?_⟩
        rintro ⟨w, hw, hreach⟩
        apply hcomp
        refine ⟨w, ?_, hreach⟩
        rcases hw with h1 | h2
        · by_cases hwc : w = current.nodeId
          · exact Or.inr ((hclosed' _).2 (Or.inr hwc))
          · exact Or.inl (hmono w ((hmemids0 _).2 ⟨h1, hwc⟩))
        · exact Or.inr ((hclosed' _).2 (Or.inl h2))

/-! ## Graph- and node-map-construction lemmas -/

theorem getAssoc_pushGraphEdge (g : List (String × List (GraphEdge α)))
    (k : String) (ge : GraphEdge α) (u : String) :
    getAssoc (pushGraphEdge g k ge) u =
      (getAssoc g u).map (fun l => if (u == k) = true then l ++ [ge] else l) := by
  unfold pushGraphEdge getAssoc
  induction g with
  | nil => rfl
  | cons p t ih =>
    rw [List.map_cons]
    by_cases hpu : (p.1 == u) = true
    · have hpu' : p.1 = u := by simpa using hpu
      have hhead : ((if (p.1 == k) = true then (p.1, p.2 ++ [ge]) else p).1 == u) =
          true := by
        by_cases hpk : (p.1 == k) = true
        · rw [if_pos hpk]
          exact hpu
        · rw [if_neg hpk]
          exact hpu
      rw [@List.find?_cons_of_pos (String × List (GraphEdge α))
          (fun q => q.1 == u) _ _ hhead,
        @List.find?_cons_of_pos (String × List (GraphEdge α))
          (fun q => q.1 == u) _ _ hpu]
      by_cases hpk : (p.1 == k) = true
      · have huk : (u == k) = true := by
          rw [← hpu']
          exact hpk
        rw [if_pos hpk]
        simp only [Option.map_some']
        rw [if_pos huk]
      · have huk : (u == k) = false := by
          rw [← hpu']
          cases hb : (p.1 == k) with
          | true => exact absurd hb hpk
          | false => rfl
        rw [if_neg hpk]
        simp only [Option.map_some']
        rw [if_neg (by simp [huk])]
    · have hhead : ¬((if (p.1 == k) = true then (p.1, p.2 ++ [ge]) else p).1 == u) =
          true := by
        by_cases hpk : (p.1 == k) = true
        · rw [if_pos hpk]
          exact hpu
        · rw [if_neg hpk]
          exact hpu
      rw [@List.find?_cons_of_neg (String × List (GraphEdge α))
          (fun q => q.1 == u) _ _ hhead,
        @List.find?_cons_of_neg (String × List (GraphEdge α))
          (fun q => q.1 == u) _ _ hpu]
      exact ih

/-- Every adjacency entry of the initial (all-empty) graph is empty. -/
theorem graphInit_entries (nodes : List (MapNode α)) :
    ∀ acc : List (String × List (GraphEdge α)),
      (∀ q ∈ acc, q.2 = ([] : List (GraphEdge α))) →
      ∀ q ∈ nodes.foldl (fun g node => setAssoc g node.id []) acc, q.2 = [] := by
  induction nodes with
  | nil => intro acc hacc q hq; exact hacc q hq
  | cons n t ih =>
    intro acc hacc q hq
    rw [List.foldl_cons] at hq
    refine ih _ ?_ q hq
    intro q' hq'
    rcases mem_setAssoc hq' with h1 | ⟨h2, _⟩
    · rw [h1]
    · exact hacc q' h2

/-- Generic characterization of `buildGraph` adjacency entries: every entry
under key `u` comes from a non-skipped map edge, in the forward or the
mirrored direction. -/
theorem buildGraph_entries (map : IndoorMap α)
    (preferences : Option (RoutePreferences α))
    (P : String → GraphEdge α → Prop)
    (hP : ∀ e ∈ map.edges,
      ¬(prefAvoidStairs preferences && e.type == EdgeType.stairs) = true →
      P e.fromId (forwardGE map e) ∧
        (e.bidirectional = true → P e.toId (reverseGE map e))) :
    ∀ u l, getAssoc (buildGraph map preferences) u = some l →
      ∀ ge ∈ l, P u ge := by
  suffices H : ∀ (edges : List (MapEdge α)), (∀ e ∈ edges, e ∈ map.edges) →
      ∀ (g : List (String × List (GraphEdge α))),
      (∀ u l, getAssoc g u = some l → ∀ ge ∈ l, P u ge) →
      ∀ u l, getAssoc (edges.foldl (fun graph edge =>
        if prefAvoidStairs preferences && edge.type == EdgeType.stairs then
          graph
        else
          if edge.bidirectional then
            pushGraphEdge (pushGraphEdge graph edge.fromId
              (forwardGE map edge)) edge.toId (reverseGE map edge)
          else pushGraphEdge graph edge.fromId (forwardGE map edge)) g) u =
        some l → ∀ ge ∈ l, P u ge by
    intro u l hl
    refine H map.edges (fun e he => he) _ ?_ u l hl
    intro u2 l2 hl2 ge hge
    have hinit := graphInit_entries map.nodes [] (by simp) _ (getAssoc_mem hl2)
    simp only at hinit
    rw [hinit] at hge
    exact absurd hge (by simp)
  intro edges
  induction edges with
  | nil =>
    intro _ g hg u l hl
    exact hg u l hl
  | cons e rest ih =>
    intro hmem g hg u l hl
    rw [List.foldl_cons] at hl
    refine ih (fun e2 he2 => hmem e2 (List.mem_cons_of_mem _ he2)) _ ?_ u l hl
    have hPe := hP e (hmem e (List.mem_cons_self _ _))
    by_cases hskip : (prefAvoidStairs preferences &&
        e.type == EdgeType.stairs) = true
    · simp only [hskip, if_pos]
      exact hg
    · have hPe2 := hPe hskip
      simp only [if_neg hskip]
      have hpush1 : ∀ u2 l2, getAssoc (pushGraphEdge g e.fromId
          (forwardGE map e)) u2 = some l2 → ∀ ge ∈ l2, P u2 ge := by
        intro u2 l2 hl2 ge hge
        rw [getAssoc_pushGraphEdge] at hl2
        rcases Option.map_eq_some'.1 hl2 with ⟨l0, hl0, hl02⟩
        subst hl02
        by_cases hu : (u2 == e.fromId) = true
        · rw [if_pos hu] at hge
          rcases List.mem_append.1 hge with h1 | h2
          · exact hg u2 l0 hl0 ge h1
          · simp only [List.mem_singleton] at h2
            subst h2
            have hu2 : u2 = e.fromId := by simpa using hu
            exact hu2 ▸ hPe2.1
        · rw [if_neg hu] at hge
          exact hg u2 l0 hl0 ge hge
      by_cases hbi : e.bidirectional = true
      · simp only [hbi, if_pos]
        intro u2 l2 hl2 ge hge
        rw [getAssoc_pushGraphEdge] at hl2
        rcases Option.map_eq_some'.1 hl2 with ⟨l0, hl0, hl02⟩
        subst hl02
        by_cases hu : (u2 == e.toId) = true
        · rw [if_pos hu] at hge
          rcases List.mem_append.1 hge with h1 | h2
          · exact hpush1 u2 l0 hl0 ge h1
          · simp only [List.mem_singleton] at h2
            subst h2
            have hu2 : u2 = e.toId := by simpa using hu
            exact hu2 ▸ hPe2.2 hbi
        · rw [if_neg hu] at hge
          exact hpush1 u2 l0 hl0 ge hge
      · simp only [if_neg hbi]
        exact hpush1

/-- Every entry of `buildNodeMap` is a node of the map keyed by its id. -/
theorem mem_buildNodeMap {map : IndoorMap α} {q : String × MapNode α}
    (h : q ∈ buildNodeMap map) : q.1 = q.2.id ∧ q.2 ∈ map.nodes := by
  unfold buildNodeMap at h
  suffices H : ∀ (l : List (MapNode α)) (acc : List (String × MapNode α)),
      q ∈ l.foldl (fun m n => setAssoc m n.id n) acc →
      (q.1 = q.2.id ∧ q.2 ∈ l) ∨ q ∈ acc by
    rcases H map.nodes [] h with h1 | h2
    · exact h1
    · exact absurd h2 (by simp)
  intro l
  induction l with
  | nil => intro acc hq; exact Or.inr hq
  | cons n t ih =>
    intro acc hq
    rw [List.foldl_cons] at hq
    rcases ih _ hq with h1 | h2
    · exact Or.inl ⟨h1.1, List.mem_cons_of_mem _ h1.2⟩
    · rcases mem_setAssoc h2 with h3 | ⟨h4, _⟩
      · rw [h3]
        exact Or.inl ⟨rfl, List.mem_cons_self _ _⟩
      · exact Or.inr h4

theorem buildNodeMap_length_le (map : IndoorMap α) :
    (buildNodeMap map).length ≤ map.nodes.length := by
  unfold buildNodeMap
  suffices H : ∀ (l : List (MapNode α)) (acc : List (String × MapNode α)),
      (l.foldl (fun m n => setAssoc m n.id n) acc).length ≤
        acc.length + l.length by
    simpa using H map.nodes []
  intro l
  induction l with
  | nil => intro acc; simp
  | cons n t ih =>
    intro acc
    rw [List.foldl_cons]
    refine le_trans (ih _) ?_
    have hset : (setAssoc acc n.id n).length ≤ acc.length + 1 := by
      unfold setAssoc
      by_cases hc : acc.any (fun p => p.1 == n.id)
      · rw [if_pos hc, List.length_map]
        omega
      · rw [if_neg hc, List.length_append]
        simp
    simp only [List.length_cons]
    omega

/-- Soundness and completeness of `findPath`, phrased through the node-id
sequence handed to the route assembler. -/
theorem findPath_spec (sqrt : α → α) (map : IndoorMap α)
    (startNodeId endNodeId : String)
    (preferences : Option (RoutePreferences α))
    (hdist : ∀ e ∈ map.edges, 0 ≤ e.distance)
    (hid : ∀ nd ∈ map.nodes, ¬nd.id = "") :
    (∀ r, findPath sqrt map startNodeId endNodeId preferences = some r →
      ∃ p : List String, p ≠ [] ∧ p.head? = some startNodeId ∧
        p.getLast? = some endNodeId ∧
        List.Chain' (ViableStep (buildGraph map preferences)
          (buildNodeMap map) preferences) p ∧
        (∀ x ∈ p, (getAssoc (buildNodeMap map) x).isSome = true) ∧ p.Nodup ∧
        r = buildRoute map p (buildNodeMap map)) ∧
    ((getAssoc (buildNodeMap map) startNodeId).isSome = true →
      (getAssoc (buildNodeMap map) endNodeId).isSome = true →
      ViableReach (buildGraph map preferences) (buildNodeMap map) preferences
        startNodeId endNodeId →
      (findPath sqrt map startNodeId endNodeId preferences).isSome = true) := by
  have hgdist : ∀ u, ∀ e ∈ (getAssoc (buildGraph map preferences) u).getD [],
      0 ≤ e.distance := by
    intro u e he
    cases hgl : getAssoc (buildGraph map preferences) u with
    | none =>
      rw [hgl] at he
      exact absurd he (by simp)
    | some l =>
      rw [hgl] at he
      simp only [Option.getD_some] at he
      refine buildGraph_entries map preferences
        (fun _ ge => 0 ≤ ge.distance) ?_ u l hgl e he
      intro e' he' _
      exact ⟨hdist e' he', fun _ => hdist e' he'⟩
  have hkeys_ne : ∀ x, (getAssoc (buildNodeMap map) x).isSome = true →
      ¬x = "" := by
    intro x hx
    obtain ⟨nd, hnd⟩ := Option.isSome_iff_exists.1 hx
    obtain ⟨h1, h2⟩ := mem_buildNodeMap (getAssoc_mem hnd)
    simp only at h1 h2
    rw [h1]
    exact hid nd h2
  have hlen := buildNodeMap_length_le map
  cases hs : getAssoc (buildNodeMap map) startNodeId with
  | none =>
    constructor
    · intro r hr
      exfalso
      simp [findPath, hs] at hr
    · intro h1 _ _
      exact absurd h1 (by simp)
  | some startNode =>
    cases he : getAssoc (buildNodeMap map) endNodeId with
    | none =>
      constructor
      · intro r hr
        exfalso
        simp [findPath, hs, he] at hr
      · intro _ h2 _
        exact absurd h2 (by simp)
    | some endNode =>
      have hInv0 : AStarInv (buildGraph map preferences) (buildNodeMap map)
          preferences startNodeId endNodeId
          (initState sqrt startNodeId startNode endNode) [] := by
        refine ⟨?_, ?_, ?_, ?_, ?_, ?_, ?_, ?_, ?_, ?_, ?_, ?_, ?_⟩
        · simp [openIds, initState, startAStar]
        · simp
        · simp
        · intro x hx
          simp only [openIds, initState, startAStar, List.map_cons,
            List.map_nil, List.mem_singleton] at hx
          subst hx
          rw [hs]
          rfl
        · simp
        · left
          simp [openIds, initState, startAStar]
        · simp
        · simp [initState, getAssoc]
        · intro kv hkv
          simp only [initState, List.mem_singleton] at hkv
          subst hkv
          refine ⟨0, rfl, le_refl _, Or.inl ?_⟩
          simp [openIds, initState, startAStar]
        · intro x hx
          simp only [openIds, initState, startAStar, List.map_cons,
            List.map_nil, List.mem_singleton] at hx
          subst hx
          simp [initState, getAssoc]
        · intro n hn
          simp only [initState, List.mem_singleton] at hn
          subst hn
          show ¬(startAStar sqrt startNodeId startNode endNode).fScore = ⊤
          simp only [startAStar]
          exact WithTop.coe_ne_top
        · intro u hu
          exact absurd hu (by simp)
        · intro vv hvv
          have hvs : vv = startNodeId := by
            rcases hvv with h1 | h2
            · simpa [openIds, initState, startAStar] using h1
            · exact absurd h2 (by simp)
          subst hvs
          exact ⟨[vv], CameChain.base vv rfl, rfl, by simp, by simp⟩
      obtain ⟨hsound, hcomp⟩ := astarLoop_spec sqrt preferences
        (buildGraph map preferences) (buildNodeMap map) endNodeId endNode
        (map.nodes.length + 1) startNodeId hgdist hkeys_ne (by omega)
        (map.nodes.length + 1) (initState sqrt startNodeId startNode endNode)
        [] hInv0 (by simpa using Nat.lt_succ_of_le hlen)
      constructor
      · intro r hr
        simp only [findPath, hs, he] at hr
        rw [Option.map_eq_some'] at hr
        obtain ⟨p, hp, hpr⟩ := hr
        obtain ⟨h1, h2, h3, h4, h5, h6⟩ := hsound p hp
        exact ⟨p, h1, h2, h3, h4, h5, h6, hpr.symm⟩
      · intro _ _ hreach
        simp only [findPath, hs, he]
        rw [Option.isSome_map']
        exact hcomp ⟨startNodeId,
          Or.inl (by simp [openIds, initState, startAStar]), hreach⟩

/-! ## Claim C9 -/

/-- **C9**: for every route whose path has fewer than 2 nodes and every
map, `generateInstructions` returns the empty instruction list (and, being
total, raises no error). -/
theorem c9_short_path_empty (atan2deg : α → α → α) (route : Route α)
    (map : IndoorMap α) (h : route.path.length < 2) :
    generateInstructions atan2deg route map = [] := by
  unfold generateInstructions
  simp [h]

/-- Witness for C9 at a concrete one-waypoint route. -/
theorem c9_short_path_empty_witness :
    Fix.singleRoute.path.length < 2 ∧
      generateInstructions (fun _ _ => (0 : ℚ)) Fix.singleRoute Fix.lineMap = [] :=
  ⟨by decide, c9_short_path_empty _ _ _ (by decide)⟩

/-! ## Claim C4 -/

/-- Membership in the closed-set folds of `validateRoute` and
`buildGraph`. -/
theorem mem_alert_fold (f : MapAlert → List String) (l : List MapAlert)
    (init : List String) (x : String) :
    x ∈ l.foldl (fun s a => s ++ f a) init ↔
      x ∈ init ∨ ∃ a ∈ l, x ∈ f a := by
  induction l generalizing init with
  | nil => simp
  | cons a l ih =>
    simp only [List.foldl_cons, ih, List.mem_append, List.mem_cons]
    constructor
    · rintro (⟨hx | hx⟩ | ⟨b, hb, hx⟩)
      · exact Or.inl hx
      · exact Or.inr ⟨a, Or.inl rfl, hx⟩
      · exact Or.inr ⟨b, Or.inr hb, hx⟩
    · rintro (hx | ⟨b, (rfl | hb), hx⟩)
      · exact Or.inl (Or.inl hx)
      · exact Or.inl (Or.inr hx)
      · exact Or.inr ⟨b, hb, hx⟩

/-- **C4** (amended): if the map carried no alert when the route was
generated, `validateRoute` on the same unchanged map returns `true`; and
`validateRoute` returns `false` once an alert is added whose affected-node
set includes any node id on `route.path`. -/
theorem c4_validate_roundtrip (sqrt : α → α) (map : IndoorMap α)
    (startId endId : String) (prefs : Option (RoutePreferences α))
    (r : Route α) (halerts : map.alerts.getD [] = [])
    (hr : findPath sqrt map startId endId prefs = some r) :
    validateRoute map r = true ∧
    ∀ (alert : MapAlert) (n : RouteNode α), n ∈ r.path →
      n.nodeId ∈ alert.affectedNodes →
      validateRoute { map with alerts := some (map.alerts.getD [] ++ [alert]) }
        r = false := by
  constructor
  · unfold validateRoute
    rw [halerts]
    simp
    intro a b _
    cases getAssoc (buildEdgeMap map.edges) (edgeKey a.nodeId b.nodeId) with
    | none => rfl
    | some e => simp
  · intro alert n hn hx
    unfold validateRoute
    have hmem : n.nodeId ∈
        ((({ map with alerts := some (map.alerts.getD [] ++ [alert])} :
            IndoorMap α).alerts.getD []).foldl
          (fun s a => s ++ a.affectedNodes) ([] : List String)) := by
      rw [mem_alert_fold]
      exact Or.inr ⟨alert, by simp, hx⟩
    have hany : ((({ map with alerts := some (map.alerts.getD [] ++ [alert])} :
        IndoorMap α)).alerts.getD []).foldl
          (fun s a => s ++ a.affectedNodes) ([] : List String) |>.contains n.nodeId := by
      simpa using hmem
    simp only []
    rw [if_pos]
    rw [List.any_eq_true]
    exact ⟨n, hn, hany⟩

/-- Witness for the amended C4 on an alert-free concrete map. -/
theorem c4_validate_roundtrip_witness :
    ∃ r : Route ℚ, findPath Fix.qsqrt Fix.lineMap "a" "c" none = some r ∧
      validateRoute Fix.lineMap r = true :=
  ⟨_, rfl,
    (c4_validate_roundtrip Fix.qsqrt Fix.lineMap "a" "c" none _ rfl rfl).1⟩

/-! ## Route-assembly lemmas -/

/-- A successful node-map lookup returns a node of the map whose id is the
queried key. -/
theorem getAssoc_node_props {map : IndoorMap α} {x : String} {nd : MapNode α}
    (h : getAssoc (buildNodeMap map) x = some nd) :
    nd.id = x ∧ nd ∈ map.nodes := by
  obtain ⟨h1, h2⟩ := mem_buildNodeMap (getAssoc_mem h)
  simp only at h1 h2
  exact ⟨h1.symm, h2⟩

/-- `Math.round(0) = 0`. -/
theorem jsRound_zero : jsRound (0 : α) = 0 := by
  unfold jsRound
  rw [zero_add, Int.floor_eq_zero_iff]
  constructor
  · norm_num
  · norm_num

/-- The node-walking loop of `buildRoute`: when every node id on the
sequence resolves, the produced route nodes carry exactly the sequence's
ids, and the accumulated distance is the sum of the per-pair edge-lookup
distances (the lookup's failure case contributing `0`). -/
theorem buildRouteGo_spec (nodeMap : List (String × MapNode α))
    (edgeMap : List (String × MapEdge α)) :
    ∀ (p : List String) (prev : Option String) (total : α)
      (acc : List (RouteNode α)),
      (∀ x ∈ p, ∃ nd, getAssoc nodeMap x = some nd ∧ nd.id = x) →
      (buildRouteGo nodeMap edgeMap prev total acc p).1.map
          (fun n => n.nodeId) =
        (acc.map (fun n => n.nodeId)).reverse ++ p ∧
      (buildRouteGo nodeMap edgeMap prev total acc p).2 =
        total + pathDistSum edgeMap (prevCons prev p) := by
  intro p
  induction p with
  | nil =>
    intro prev total acc _
    constructor
    · simp [buildRouteGo]
    · cases prev with
      | none => simp [buildRouteGo, prevCons, pathDistSum]
      | some u => simp [buildRouteGo, prevCons, pathDistSum]
  | cons x rest ih =>
    intro prev total acc hres
    obtain ⟨nd, hnd, hndid⟩ := hres x (List.mem_cons_self _ _)
    have hrest : ∀ y ∈ rest, ∃ nd, getAssoc nodeMap y = some nd ∧ nd.id = y :=
      fun y hy => hres y (List.mem_cons_of_mem _ hy)
    cases prev with
    | none =>
      have hstep : buildRouteGo nodeMap edgeMap none total acc (x :: rest) =
          buildRouteGo nodeMap edgeMap (some x) total
            ({ nodeId := nd.id, name := nd.name, type := nd.type,
               coordinates := nd.coordinates, distanceFromStart := total,
               estimatedTimeFromStart :=
                 jsRound (total / WALKING_SPEED_MPS) } :: acc) rest := by
        simp only [buildRouteGo, hnd]
      rw [hstep]
      obtain ⟨ih1, ih2⟩ := ih (some x) total _ hrest
      constructor
      · rw [ih1]
        simp [hndid]
      · rw [ih2]
        simp only [prevCons, pathDistSum]
    | some u =>
      have hstep : buildRouteGo nodeMap edgeMap (some u) total acc (x :: rest) =
          buildRouteGo nodeMap edgeMap (some x) (total + lookupDist edgeMap u x)
            ({ nodeId := nd.id, name := nd.name, type := nd.type,
               coordinates := nd.coordinates,
               distanceFromStart := total + lookupDist edgeMap u x,
               estimatedTimeFromStart :=
                 jsRound ((total + lookupDist edgeMap u x) /
                   WALKING_SPEED_MPS) } :: acc) rest := by
        simp only [buildRouteGo, hnd, lookupDist]
        cases getAssoc edgeMap (edgeKey u x) with
        | none => simp
        | some e => simp
      rw [hstep]
      obtain ⟨ih1, ih2⟩ := ih (some x) (total + lookupDist edgeMap u x) _ hrest
      constructor
      · rw [ih1]
        simp [hndid]
      · rw [ih2]
        simp only [prevCons, pathDistSum]
        ring

/-- `buildRoute` on a resolving node-id sequence: the route's path carries
exactly the sequence's ids and `totalDistance` is the raw per-pair
edge-distance sum. -/
theorem buildRoute_spec (map : IndoorMap α) (p : List String)
    (hres : ∀ x ∈ p, (getAssoc (buildNodeMap map) x).isSome = true) :
    (buildRoute map p (buildNodeMap map)).path.map (fun n => n.nodeId) = p ∧
    (buildRoute map p (buildNodeMap map)).totalDistance =
      pathDistSum (buildEdgeMap map.edges) p := by
  have hres' : ∀ x ∈ p, ∃ nd, getAssoc (buildNodeMap map) x = some nd ∧
      nd.id = x := by
    intro x hx
    obtain ⟨nd, hnd⟩ := Option.isSome_iff_exists.1 (hres x hx)
    exact ⟨nd, hnd, (getAssoc_node_props hnd).1⟩
  obtain ⟨h1, h2⟩ := buildRouteGo_spec (buildNodeMap map)
    (buildEdgeMap map.edges) p none 0 [] hres'
  constructor
  · simpa [buildRoute] using h1
  · simpa [buildRoute] using h2

/-- A duplicate-free list over `{a, b}` from `a` to `b ≠ a` is `[a, b]`. -/
theorem pin_pair {p : List String} {a b : String} (hab : ¬a = b)
    (hh : p.head? = some a) (hl : p.getLast? = some b) (hn : p.Nodup)
    (hm : ∀ x ∈ p, x = a ∨ x = b) : p = [a, b] := by
  cases p with
  | nil => exact absurd hh (by simp)
  | cons y t =>
    have hy : y = a := by simpa using hh
    subst hy
    cases t with
    | nil =>
      exfalso
      have : y = b := by simpa using hl
      exact hab this
    | cons z t' =>
      have hz : z = y ∨ z = b := hm z (by simp)
      have hza : ¬z = y := by
        intro hzz
        subst hzz
        simp at hn
      have hzb : z = b := hz.resolve_left hza
      subst hzb
      cases t' with
      | nil => rfl
      | cons w t'' =>
        exfalso
        rcases hm w (by simp) with hw | hw
        · exact (List.nodup_cons.1 hn).1 (by simp [hw])
        · exact (List.nodup_cons.1 (List.nodup_cons.1 hn).2).1 (by simp [hw])

/-- A duplicate-free chain over `{a, b, c}` from `a` to `c`, whose only
step out of `a` goes to `b` and whose steps out of `b` go to `a` or `c`,
is `[a, b, c]`. -/
theorem pin_triple {S : String → String → Prop} {p : List String}
    {a b c : String} (hab : ¬a = b) (hac : ¬a = c) (hbc : ¬b = c)
    (hh : p.head? = some a) (hl : p.getLast? = some c) (hn : p.Nodup)
    (hm : ∀ x ∈ p, x = a ∨ x = b ∨ x = c) (hch : List.Chain' S p)
    (hSa : ∀ v, S a v → v = b) (hSb : ∀ v, S b v → v = a ∨ v = c) :
    p = [a, b, c] := by
  cases p with
  | nil => exact absurd hh (by simp)
  | cons y t =>
    have hy : y = a := by simpa using hh
    subst hy
    cases t with
    | nil =>
      exfalso
      exact hac (by simpa using hl)
    | cons z t' =>
      have hz : z = b := hSa z (List.chain'_cons.1 hch).1
      subst hz
      cases t' with
      | nil =>
        exfalso
        exact hbc (by simpa using hl)
      | cons w t'' =>
        have hstep : S z w := (List.chain'_cons.1 (List.chain'_cons.1 hch).2).1
        have hw : w = c := by
          rcases hSb w hstep with h | h
          · exfalso
            exact (List.nodup_cons.1 hn).1 (by simp [h])
          · exact h
        subst hw
        cases t'' with
        | nil => rfl
        | cons v t3 =>
          exfalso
          rcases hm v (by simp) with h | h | h
          · exact (List.nodup_cons.1 hn).1 (by simp [h])
          · exact (List.nodup_cons.1 (List.nodup_cons.1 hn).2).1 (by simp [h])
          · exact (List.nodup_cons.1
              (List.nodup_cons.1 (List.nodup_cons.1 hn).2).2).1 (by simp [h])

/-! ## Claim C1 -/

/-- **C1** (amended): for a reachable pair of existing nodes, `findPath`
returns a Route whose path starts at `startNodeId`, ends at `endNodeId`,
and whose `totalDistance` is the sum of the looked-up edge distances over
consecutive path pairs — the *raw* distances: the 0.8 elevator discount of
the claim enters only the A* edge costs, never `buildRoute`'s sum. -/
theorem c1_endpoints_raw_total (sqrt : α → α) (map : IndoorMap α)
    (startNodeId endNodeId : String)
    (preferences : Option (RoutePreferences α))
    (hdist : ∀ e ∈ map.edges, 0 ≤ e.distance)
    (hid : ∀ nd ∈ map.nodes, ¬nd.id = "")
    (hs : (getAssoc (buildNodeMap map) startNodeId).isSome = true)
    (he : (getAssoc (buildNodeMap map) endNodeId).isSome = true)
    (hreach : ViableReach (buildGraph map preferences) (buildNodeMap map)
      preferences startNodeId endNodeId) :
    ∃ r : Route α,
      findPath sqrt map startNodeId endNodeId preferences = some r ∧
      (r.path.map (fun n => n.nodeId)).head? = some startNodeId ∧
      (r.path.map (fun n => n.nodeId)).getLast? = some endNodeId ∧
      r.totalDistance =
        pathDistSum (buildEdgeMap map.edges)
          (r.path.map (fun n => n.nodeId)) := by
  obtain ⟨hsound, hcomp⟩ :=
    findPath_spec sqrt map startNodeId endNodeId preferences hdist hid
  obtain ⟨r, hr⟩ := Option.isSome_iff_exists.1 (hcomp hs he hreach)
  obtain ⟨p, hne, hh, hl, hch, hres, hnd, hrb⟩ := hsound r hr
  obtain ⟨hids, htot⟩ := buildRoute_spec map p hres
  subst hrb
  refine ⟨_, hr, ?_, ?_, ?_⟩
  · rw [hids]
    exact hh
  · rw [hids]
    exact hl
  · rw [hids]
    exact htot

/-- Witness for the amended C1 on the three-node line map. -/
theorem c1_endpoints_raw_total_witness :
    ∃ r : Route ℚ, findPath Fix.qsqrt Fix.lineMap "a" "c" none = some r ∧
      (r.path.map (fun n => n.nodeId)).head? = some "a" ∧
      (r.path.map (fun n => n.nodeId)).getLast? = some "c" ∧
      r.totalDistance =
        pathDistSum (buildEdgeMap Fix.lineMap.edges)
          (r.path.map (fun n => n.nodeId)) :=
  c1_endpoints_raw_total Fix.qsqrt Fix.lineMap "a" "c" none (by decide)
    (by decide) (by decide) (by decide)
    (Relation.ReflTransGen.head (by decide : ViableStep _ _ _ "a" "b")
      (Relation.ReflTransGen.single (by decide : ViableStep _ _ _ "b" "c")))

/-- **C1** (counterexample): on a single elevator edge of length 10 with
`preferElevators` set, the returned route's `totalDistance` is the raw 10,
not the discounted per-pair sum 8 the claim asks for. -/
theorem c1_discount_counterexample :
    ∃ r : Route ℚ,
      findPath Fix.qsqrt Fix.elevMap "a" "b" Fix.prefsElev = some r ∧
      r.path.map (fun n => n.nodeId) = ["a", "b"] ∧
      r.totalDistance = 10 ∧
      discountedPathSum Fix.prefsElev (buildEdgeMap Fix.elevMap.edges)
        (r.path.map (fun n => n.nodeId)) = 8 ∧
      ¬r.totalDistance =
        discountedPathSum Fix.prefsElev (buildEdgeMap Fix.elevMap.edges)
          (r.path.map (fun n => n.nodeId)) := by
  obtain ⟨hsound, hcomp⟩ :=
    findPath_spec Fix.qsqrt Fix.elevMap "a" "b" Fix.prefsElev (by decide)
      (by decide)
  obtain ⟨r, hr⟩ := Option.isSome_iff_exists.1
    (hcomp (by decide) (by decide) (Relation.ReflTransGen.single (by decide)))
  obtain ⟨p, hne, hh, hl, hch, hres, hnd, hrb⟩ := hsound r hr
  have hm : ∀ x ∈ p, x = "a" ∨ x = "b" := by
    intro x hx
    obtain ⟨nd, hndx⟩ := Option.isSome_iff_exists.1 (hres x hx)
    obtain ⟨hid', hmem⟩ := getAssoc_node_props hndx
    rcases (by decide : ∀ nd ∈ Fix.elevMap.nodes, nd.id = "a" ∨ nd.id = "b")
        nd hmem with h | h
    · exact Or.inl (hid' ▸ h)
    · exact Or.inr (hid' ▸ h)
  have hp : p = ["a", "b"] := pin_pair (by decide) hh hl hnd hm
  subst hp
  obtain ⟨hids, htot⟩ := buildRoute_spec Fix.elevMap ["a", "b"] hres
  subst hrb
  have hlk : getAssoc (buildEdgeMap Fix.elevMap.edges) (edgeKey "a" "b") =
      some (Fix.edge "e1" "a" "b" 10 .elevator) := rfl
  have h10 : pathDistSum (buildEdgeMap Fix.elevMap.edges) ["a", "b"] = 10 := by
    simp only [pathDistSum, lookupDist, hlk]
    norm_num [Fix.edge]
  have h8 : discountedPathSum Fix.prefsElev (buildEdgeMap Fix.elevMap.edges)
      ["a", "b"] = 8 := by
    simp only [discountedPathSum, discountedLookupDist, hlk]
    rw [if_pos (by decide)]
    norm_num [Fix.edge]
  refine ⟨_, hr, ?_, ?_, ?_, ?_⟩
  · rw [hids]
  · rw [htot]
    exact h10
  · rw [hids]
    exact h8
  · rw [hids, htot, h10, h8]
    norm_num

/-! ## Claim C2 -/

/-- The `cameFrom` map after one relaxation step: unchanged, or extended
at `ge.toId` with predecessor `cur`, and then only with the closed-edge
guard passed and the target node resolved. -/
theorem processNeighbor_cameFrom_cases (sqrt : α → α)
    (preferences : Option (RoutePreferences α))
    (nodeMap : List (String × MapNode α)) (endNode : MapNode α)
    (closedSet : List String) (cur : String) (st : AStarState α)
    (ge : GraphEdge α) :
    (processNeighbor sqrt preferences nodeMap endNode closedSet cur
        st ge).cameFrom = st.cameFrom ∨
    ((processNeighbor sqrt preferences nodeMap endNode closedSet cur
        st ge).cameFrom = setAssoc st.cameFrom ge.toId cur ∧
      ¬(ge.isClosed = true ∧ prefAvoidStairs preferences = false) ∧
      (getAssoc nodeMap ge.toId).isSome = true) := by
  by_cases hskip : (ge.isClosed && !prefAvoidStairs preferences) = true
  · have hres : processNeighbor sqrt preferences nodeMap endNode closedSet cur
        st ge = st := by
      unfold processNeighbor
      rw [if_pos hskip]
    rw [hres]
    exact Or.inl rfl
  · by_cases hcs : closedSet.contains ge.toId = true
    · have hres : processNeighbor sqrt preferences nodeMap endNode closedSet
          cur st ge = st := by
        unfold processNeighbor
        rw [if_neg hskip, if_pos hcs]
      rw [hres]
      exact Or.inl rfl
    · cases hnm : getAssoc nodeMap ge.toId with
      | none =>
        have hres : processNeighbor sqrt preferences nodeMap endNode closedSet
            cur st ge = st := by
          unfold processNeighbor
          rw [if_neg hskip, if_neg hcs, hnm]
        rw [hres]
        exact Or.inl rfl
      | some nn =>
        have hguard : ¬(ge.isClosed = true ∧
            prefAvoidStairs preferences = false) := by
          rintro ⟨h1, h2⟩
          apply hskip
          rw [h1, h2]
          rfl
        set eCost : α := (if prefPreferElevators preferences &&
            ge.edgeType == EdgeType.elevator then ge.distance * (8 / 10)
          else ge.distance) with heC
        set tent : WithTop α :=
          (getAssoc st.gScores cur).getD ⊤ + ((eCost : α) : WithTop α)
          with htent
        have key : processNeighbor sqrt preferences nodeMap endNode closedSet
            cur st ge =
            if tent < (getAssoc st.gScores ge.toId).getD ⊤ then
              { openSet := setOpen st.openSet
                  { nodeId := ge.toId, gScore := tent,
                    fScore := tent + ((heuristic sqrt nn.coordinates
                      endNode.coordinates : α) : WithTop α),
                    parent := some cur },
                cameFrom := setAssoc st.cameFrom ge.toId cur,
                gScores := setAssoc st.gScores ge.toId tent }
            else st := by
          unfold processNeighbor
          rw [if_neg hskip, if_neg hcs, hnm]
        rw [key]
        by_cases hrel : tent < (getAssoc st.gScores ge.toId).getD ⊤
        · rw [if_pos hrel]
          exact Or.inr ⟨rfl, hguard, rfl⟩
        · rw [if_neg hrel]
          exact Or.inl rfl

/-- The neighbor-relaxation fold preserves the `cameFrom` invariant when
its edges come from the expanded node's adjacency list. -/
theorem foldl_processNeighbor_cameFromInv (sqrt : α → α)
    (preferences : Option (RoutePreferences α))
    (graph : List (String × List (GraphEdge α)))
    (nodeMap : List (String × MapNode α)) (endNode : MapNode α)
    (closedSet : List String) (cur : String) :
    ∀ (neighbors : List (GraphEdge α)),
      (∀ ge ∈ neighbors, ge ∈ (getAssoc graph cur).getD []) →
      ∀ st : AStarState α,
        CameFromInv graph nodeMap preferences st.cameFrom →
        CameFromInv graph nodeMap preferences
          ((neighbors.foldl (processNeighbor sqrt preferences nodeMap endNode
            closedSet cur) st).cameFrom) := by
  intro neighbors
  induction neighbors with
  | nil =>
    intro _ st hinv
    exact hinv
  | cons ge rest ih =>
    intro hmem st hinv
    rw [List.foldl_cons]
    refine ih (fun g hg => hmem g (List.mem_cons_of_mem _ hg)) _ ?_
    rcases processNeighbor_cameFrom_cases sqrt preferences nodeMap endNode
        closedSet cur st ge with h | ⟨h, hguard, hsome⟩
    · rw [h]
      exact hinv
    · rw [h]
      intro q hq
      rcases mem_setAssoc hq with h1 | ⟨h2, _⟩
      · rw [h1]
        exact ⟨ge, hmem ge (List.mem_cons_self _ _), rfl, hguard, hsome⟩
      · exact hinv q h2

/-- When the A* loop returns a path, that path is the reconstruction from
a `cameFrom` map every entry of which is a viable step. -/
theorem astarLoop_cameFrom_spec (sqrt : α → α)
    (preferences : Option (RoutePreferences α))
    (graph : List (String × List (GraphEdge α)))
    (nodeMap : List (String × MapNode α)) (endNodeId : String)
    (endNode : MapNode α) (reconFuel : ℕ) :
    ∀ (fuel : ℕ) (st : AStarState α) (closedSet : List String),
      CameFromInv graph nodeMap preferences st.cameFrom →
      ∀ p, astarLoop sqrt preferences graph nodeMap endNodeId endNode
          reconFuel fuel st closedSet = some p →
        ∃ cf, CameFromInv graph nodeMap preferences cf ∧
          p = reconstructPath cf reconFuel (some endNodeId) := by
  intro fuel
  induction fuel with
  | zero =>
    intro st cs _ p hp
    exact absurd hp (by simp [astarLoop])
  | succ f ih =>
    intro st cs hinv p hp
    by_cases hempty : st.openSet.isEmpty = true
    · rw [show astarLoop sqrt preferences graph nodeMap endNodeId endNode
          reconFuel (f + 1) st cs = none by
        unfold astarLoop
        rw [if_pos hempty]] at hp
      exact absurd hp (by simp)
    · cases hsel : selectLowest st.openSet with
      | none =>
        rw [show astarLoop sqrt preferences graph nodeMap endNodeId endNode
            reconFuel (f + 1) st cs = none by
          simp only [astarLoop, if_neg hempty, hsel]] at hp
        exact absurd hp (by simp)
      | some current =>
        by_cases hend : (current.nodeId == endNodeId) = true
        · rw [show astarLoop sqrt preferences graph nodeMap endNodeId endNode
              reconFuel (f + 1) st cs =
              some (reconstructPath st.cameFrom reconFuel (some endNodeId)) by
            simp only [astarLoop, if_neg hempty, hsel, if_pos hend]] at hp
          refine ⟨st.cameFrom, hinv, ?_⟩
          simpa using hp.symm
        · rw [show astarLoop sqrt preferences graph nodeMap endNodeId endNode
              reconFuel (f + 1) st cs =
              astarLoop sqrt preferences graph nodeMap endNodeId endNode
                reconFuel f
                (((getAssoc graph current.nodeId).getD []).foldl
                  (processNeighbor sqrt preferences nodeMap endNode
                    (cs ++ [current.nodeId]) current.nodeId)
                  { st with openSet :=
                      st.openSet.filter (fun m => !(m.nodeId == current.nodeId)) })
                (cs ++ [current.nodeId]) by
            simp only [astarLoop, if_neg hempty, hsel, if_neg hend]] at hp
          refine ih _ _ ?_ p hp
          exact foldl_processNeighbor_cameFromInv sqrt preferences graph
            nodeMap endNode (cs ++ [current.nodeId]) current.nodeId _
            (fun g hg => hg) _ hinv

/-- A nonempty reconstruction from `some u` ends in `u`. -/
theorem reconstructPath_getLast (cameFrom : List (String × String))
    (fuel : ℕ) (u : String) :
    reconstructPath cameFrom fuel (some u) = [] ∨
      (reconstructPath cameFrom fuel (some u)).getLast? = some u := by
  cases fuel with
  | zero => exact Or.inl rfl
  | succ fuel =>
    by_cases hc : (u == "") = true
    · exact Or.inl (by simp [reconstructPath, hc])
    · right
      have hc2 : (u == "") = false := by
        cases hb : (u == "") with
        | true => exact absurd hb hc
        | false => rfl
      simp only [reconstructPath, hc2]
      rw [if_neg (by simp), List.getLast?_concat]

/-- Consecutive elements of any reconstructed path are linked in the
`cameFrom` map (truncation at a falsy id only shortens the walk, never
breaks a link). -/
theorem reconstructPath_chain (cameFrom : List (String × String)) :
    ∀ (fuel : ℕ) (o : Option String),
      List.Chain' (fun u v => getAssoc cameFrom v = some u)
        (reconstructPath cameFrom fuel o) := by
  intro fuel
  induction fuel with
  | zero =>
    intro o
    cases o with
    | none => simp [reconstructPath]
    | some c => simp [reconstructPath]
  | succ fuel ih =>
    intro o
    cases o with
    | none => simp [reconstructPath]
    | some c =>
      by_cases hc : (c == "") = true
      · simp [reconstructPath, hc]
      · have hc2 : (c == "") = false := by
          cases hb : (c == "") with
          | true => exact absurd hb hc
          | false => rfl
        simp only [reconstructPath, hc2]
        rw [if_neg (by simp), List.chain'_append]
        refine ⟨ih _, List.chain'_singleton _, ?_⟩
        intro x hx y hy
        simp only [List.head?_cons, Option.mem_def, Option.some.injEq] at hy
        subst hy
        cases hg : getAssoc cameFrom c with
        | none =>
          rw [hg, reconstructPath_none] at hx
          exact absurd hx (by simp)
        | some u =>
          rw [hg] at hx
          rcases reconstructPath_getLast cameFrom fuel u with h | h
          · rw [h] at hx
            exact absurd hx (by simp)
          · rw [h] at hx
            simp only [Option.mem_def, Option.some.injEq] at hx
            subst hx
            rfl

/-- Each element of a chain's tail has a predecessor under the chain's
relation. -/
theorem chain_tail_rel {R : String → String → Prop} :
    ∀ (p : List String), List.Chain' R p → ∀ x ∈ p.tail, ∃ u, R u x := by
  intro p
  induction p with
  | nil =>
    intro _ x hx
    exact absurd hx (by simp)
  | cons a t ih =>
    intro h x hx
    simp only [List.tail_cons] at hx
    cases t with
    | nil => exact absurd hx (by simp)
    | cons b t2 =>
      rcases List.mem_cons.1 hx with h1 | h2
      · subst h1
        exact ⟨a, (List.chain'_cons.1 h).1⟩
      · exact ih (List.chain'_cons.1 h).2 x (by simpa using h2)

/-- The route's node-id sequence is the handed-in sequence, or its tail
when the leading id does not resolve (only the reconstruction's leading
id can fail to resolve; every later element is a `cameFrom` key whose
resolution the relaxation checked). -/
theorem buildRoute_ids_cases (map : IndoorMap α) (p : List String)
    (htail : ∀ x ∈ p.tail, (getAssoc (buildNodeMap map) x).isSome = true) :
    (buildRoute map p (buildNodeMap map)).path.map (fun n => n.nodeId) = p ∨
    (buildRoute map p (buildNodeMap map)).path.map (fun n => n.nodeId) =
      p.tail := by
  cases p with
  | nil =>
    left
    simp [buildRoute, buildRouteGo]
  | cons p0 rest =>
    by_cases h0 : (getAssoc (buildNodeMap map) p0).isSome = true
    · left
      refine (buildRoute_spec map (p0 :: rest) ?_).1
      intro x hx
      rcases List.mem_cons.1 hx with h1 | h2
      · subst h1
        exact h0
      · exact htail x (by simpa using h2)
    · right
      have hnone : getAssoc (buildNodeMap map) p0 = none := by
        cases hx : getAssoc (buildNodeMap map) p0 with
        | none => rfl
        | some nd => exact absurd (by rw [hx]; rfl) h0
      have hres2 : ∀ x ∈ rest, ∃ nd, getAssoc (buildNodeMap map) x =
          some nd ∧ nd.id = x := by
        intro x hx
        obtain ⟨nd, hnd⟩ := Option.isSome_iff_exists.1
          (htail x (by simpa using hx))
        exact ⟨nd, hnd, (getAssoc_node_props hnd).1⟩
      have hgo := (buildRouteGo_spec (buildNodeMap map)
        (buildEdgeMap map.edges) rest (some p0) 0 [] hres2).1
      have hstep : buildRouteGo (buildNodeMap map) (buildEdgeMap map.edges)
          none 0 [] (p0 :: rest) =
          buildRouteGo (buildNodeMap map) (buildEdgeMap map.edges)
            (some p0) 0 [] rest := by
        simp only [buildRouteGo, hnone]
      simp only [buildRoute, hstep]
      simpa using hgo

/-- **C2**: with `avoidStairs` set, no adjacency entry of the built graph
has type `stairs` (stairs edges are excluded entirely, not merely marked
closed), and every returned route walks only graph entries — hence none of
type `stairs` — between its consecutive path pairs. -/
theorem c2_no_stairs (sqrt : α → α) (map : IndoorMap α)
    (startNodeId endNodeId : String)
    (preferences : Option (RoutePreferences α))
    (hprefs : prefAvoidStairs preferences = true) :
    (∀ u l, getAssoc (buildGraph map preferences) u = some l →
      ∀ ge ∈ l, ¬ge.edgeType = EdgeType.stairs) ∧
    (∀ r, findPath sqrt map startNodeId endNodeId preferences = some r →
      List.Chain' (fun u v =>
        ∃ ge ∈ (getAssoc (buildGraph map preferences) u).getD [],
          ge.toId = v ∧ ¬ge.edgeType = EdgeType.stairs)
        (r.path.map (fun n => n.nodeId))) := by
  have hgraph : ∀ u l, getAssoc (buildGraph map preferences) u = some l →
      ∀ ge ∈ l, ¬ge.edgeType = EdgeType.stairs := by
    refine buildGraph_entries map preferences
      (fun _ ge => ¬ge.edgeType = EdgeType.stairs) ?_
    intro e he hskip
    have hne : ¬e.type = EdgeType.stairs := by
      intro hty
      exact hskip (by rw [hprefs, hty]; rfl)
    exact ⟨hne, fun _ => hne⟩
  refine ⟨hgraph, ?_⟩
  intro r hr
  have hupg : ∀ u v, ViableStep (buildGraph map preferences)
      (buildNodeMap map) preferences u v →
      ∃ ge ∈ (getAssoc (buildGraph map preferences) u).getD [],
        ge.toId = v ∧ ¬ge.edgeType = EdgeType.stairs := by
    intro u v hstep
    obtain ⟨ge, hge, hto, _, _⟩ := hstep
    refine ⟨ge, hge, hto, ?_⟩
    cases hgl : getAssoc (buildGraph map preferences) u with
    | none =>
      rw [hgl] at hge
      exact absurd hge (by simp)
    | some l =>
      rw [hgl] at hge
      simp only [Option.getD_some] at hge
      exact hgraph u l hgl ge hge
  cases hs : getAssoc (buildNodeMap map) startNodeId with
  | none =>
    exfalso
    simp [findPath, hs] at hr
  | some startNode =>
    cases he : getAssoc (buildNodeMap map) endNodeId with
    | none =>
      exfalso
      simp [findPath, hs, he] at hr
    | some endNode =>
      simp only [findPath, hs, he] at hr
      rw [Option.map_eq_some'] at hr
      obtain ⟨p, hploop, hrb⟩ := hr
      obtain ⟨cf, hinv, hp⟩ := astarLoop_cameFrom_spec sqrt preferences
        (buildGraph map preferences) (buildNodeMap map) endNodeId endNode
        (map.nodes.length + 1) (map.nodes.length + 1) _ []
        (by intro q hq; exact absurd hq (by simp)) p hploop
      subst hp
      subst hrb
      have hchainV : List.Chain' (ViableStep (buildGraph map preferences)
          (buildNodeMap map) preferences)
          (reconstructPath cf (map.nodes.length + 1) (some endNodeId)) :=
        List.Chain'.imp
          (fun u v h => hinv (v, u) (getAssoc_mem h))
          (reconstructPath_chain cf (map.nodes.length + 1) (some endNodeId))
      have hchainS := List.Chain'.imp hupg hchainV
      have htail : ∀ x ∈ (reconstructPath cf (map.nodes.length + 1)
          (some endNodeId)).tail,
          (getAssoc (buildNodeMap map) x).isSome = true := by
        intro x hx
        obtain ⟨u, hu⟩ := chain_tail_rel _ hchainV x hx
        obtain ⟨ge, _, _, _, hsome⟩ := hu
        exact hsome
      rcases buildRoute_ids_cases map
          (reconstructPath cf (map.nodes.length + 1) (some endNodeId))
          htail with h | h
      · rw [h]
        exact hchainS
      · rw [h]
        exact List.Chain'.tail hchainS

/-- Witness for C2 on the stairs-then-hallway map under avoid-stairs
preferences. -/
theorem c2_no_stairs_witness :
    (∀ u l, getAssoc (buildGraph Fix.stairsMap Fix.prefsAvoid) u = some l →
      ∀ ge ∈ l, ¬ge.edgeType = EdgeType.stairs) ∧
    (∀ r, findPath Fix.qsqrt Fix.stairsMap "a" "c" Fix.prefsAvoid = some r →
      List.Chain' (fun u v =>
        ∃ ge ∈ (getAssoc (buildGraph Fix.stairsMap Fix.prefsAvoid) u).getD [],
          ge.toId = v ∧ ¬ge.edgeType = EdgeType.stairs)
        (r.path.map (fun n => n.nodeId))) :=
  c2_no_stairs Fix.qsqrt Fix.stairsMap "a" "c" Fix.prefsAvoid (by decide)

/-! ## Claim C3 -/

/-- **C3**: the neighbor loop skips an edge exactly when it is closed and
`avoidStairs` is not set; otherwise the edge is processed as if it were
open (closed edges are still considered when `avoidStairs` is set).  And
the closed flag holds exactly when the edge id appears in some alert's
affected-edges set, or its metadata marks a temporary closure, or its
accessible flag is false. -/
theorem c3_closed_guard (sqrt : α → α) (map : IndoorMap α) (e : MapEdge α)
    (preferences : Option (RoutePreferences α))
    (nodeMap : List (String × MapNode α)) (endNode : MapNode α)
    (closedSet : List String) (currentId : String) (st : AStarState α)
    (ge : GraphEdge α) :
    (processNeighbor sqrt preferences nodeMap endNode closedSet currentId
        st ge =
      if ge.isClosed = true ∧ prefAvoidStairs preferences = false then st
      else processNeighbor sqrt preferences nodeMap endNode closedSet
        currentId st { ge with isClosed := false }) ∧
    (edgeClosedFlag map e = true ↔
      (∃ a ∈ map.alerts.getD [], e.id ∈ a.affectedEdges) ∨
      (∃ md, e.metadata = some md ∧ md.temporaryClosure = some true) ∨
      e.accessible = false) := by
  constructor
  · obtain ⟨tid, dist, acc, ety, closed⟩ := ge
    cases closed with
    | false =>
      rw [if_neg (by simp)]
    | true =>
      cases hpa : prefAvoidStairs preferences with
      | false =>
        rw [if_pos ⟨rfl, rfl⟩]
        simp [processNeighbor, hpa]
      | true =>
        rw [if_neg (by simp)]
        simp [processNeighbor, hpa]
  · unfold edgeClosedFlag
    simp only [Bool.or_eq_true, Bool.not_eq_true']
    refine Iff.trans or_assoc (or_congr ?_ (or_congr ?_ Iff.rfl))
    · have hcm : (((map.alerts.getD []).foldl
          (fun s alert => s ++ alert.affectedEdges)
          ([] : List String)).contains e.id = true) ↔
          e.id ∈ (map.alerts.getD []).foldl
            (fun s alert => s ++ alert.affectedEdges) ([] : List String) :=
        ⟨fun h => List.elem_iff.1 h, fun h => List.elem_iff.2 h⟩
      rw [hcm, mem_alert_fold]
      simp
    · cases e.metadata with
      | none => simp
      | some md => simp

/-! ## Claim C4 (counterexample) -/

/-- **C4** (counterexample): on a map that already carries an alert whose
affected-node set contains the interior node `b`, `findPath` still routes
`a → b → c` (it never consults `affectedNodes`), and `validateRoute` on
the very same unchanged map snapshot immediately returns `false`. -/
theorem c4_alert_counterexample :
    ∃ r : Route ℚ,
      findPath Fix.qsqrt Fix.alertNodeMap "a" "c" none = some r ∧
      validateRoute Fix.alertNodeMap r = false := by
  obtain ⟨hsound, hcomp⟩ :=
    findPath_spec Fix.qsqrt Fix.alertNodeMap "a" "c" none (by decide)
      (by decide)
  have hstep1 : ViableStep (buildGraph Fix.alertNodeMap none)
      (buildNodeMap Fix.alertNodeMap) none "a" "b" := by decide
  have hstep2 : ViableStep (buildGraph Fix.alertNodeMap none)
      (buildNodeMap Fix.alertNodeMap) none "b" "c" := by decide
  obtain ⟨r, hr⟩ := Option.isSome_iff_exists.1
    (hcomp (by decide) (by decide)
      (Relation.ReflTransGen.head hstep1
        (Relation.ReflTransGen.single hstep2)))
  obtain ⟨p, hpne, hh, hl, hch, hres, hnd, hrb⟩ := hsound r hr
  have hm : ∀ x ∈ p, x = "a" ∨ x = "b" ∨ x = "c" := by
    intro x hx
    obtain ⟨nd, hndx⟩ := Option.isSome_iff_exists.1 (hres x hx)
    obtain ⟨hid', hmem⟩ := getAssoc_node_props hndx
    rcases (by decide : ∀ nd ∈ Fix.alertNodeMap.nodes,
        nd.id = "a" ∨ nd.id = "b" ∨ nd.id = "c") nd hmem with h | h | h
    · exact Or.inl (hid' ▸ h)
    · exact Or.inr (Or.inl (hid' ▸ h))
    · exact Or.inr (Or.inr (hid' ▸ h))
  have hSa : ∀ v, ViableStep (buildGraph Fix.alertNodeMap none)
      (buildNodeMap Fix.alertNodeMap) none "a" v → v = "b" := by
    intro v hv
    obtain ⟨ge, hge, hto, _, _⟩ := hv
    have hga : (getAssoc (buildGraph Fix.alertNodeMap none) "a").getD [] =
        [⟨"b", 10, true, .hallway, false⟩] := rfl
    rw [hga] at hge
    simp only [List.mem_singleton] at hge
    subst hge
    exact hto.symm
  have hSb : ∀ v, ViableStep (buildGraph Fix.alertNodeMap none)
      (buildNodeMap Fix.alertNodeMap) none "b" v → v = "a" ∨ v = "c" := by
    intro v hv
    obtain ⟨ge, hge, hto, _, _⟩ := hv
    have hgb : (getAssoc (buildGraph Fix.alertNodeMap none) "b").getD [] =
        [⟨"a", 10, true, .hallway, false⟩, ⟨"c", 10, true, .hallway, false⟩] :=
      rfl
    rw [hgb] at hge
    simp only [List.mem_cons, List.mem_singleton] at hge
    rcases hge with hge | hge | hge
    · subst hge
      exact Or.inl hto.symm
    · subst hge
      exact Or.inr hto.symm
    · exact absurd hge (by simp)
  have hp : p = ["a", "b", "c"] :=
    pin_triple (by decide) (by decide) (by decide) hh hl hnd hm hch hSa hSb
  subst hp
  obtain ⟨hids, _⟩ := buildRoute_spec Fix.alertNodeMap ["a", "b", "c"] hres
  subst hrb
  refine ⟨_, hr, ?_⟩
  have hfoldN : ((Fix.alertNodeMap.alerts.getD []).foldl
      (fun s a => s ++ a.affectedNodes) ([] : List String)) = ["b"] := rfl
  have hany : (buildRoute Fix.alertNodeMap ["a", "b", "c"]
      (buildNodeMap Fix.alertNodeMap)).path.any
        (fun n => (["b"] : List String).contains n.nodeId) = true := by
    have hbmem : "b" ∈ (buildRoute Fix.alertNodeMap ["a", "b", "c"]
        (buildNodeMap Fix.alertNodeMap)).path.map (fun n => n.nodeId) := by
      rw [hids]
      simp
    obtain ⟨n, hn, hnb⟩ := List.mem_map.1 hbmem
    rw [List.any_eq_true]
    exact ⟨n, hn, by rw [hnb]; rfl⟩
  simp only [validateRoute, hfoldN]
  rw [if_pos hany]

/-! ## Claim C10 -/

/-- **C10** (amended): for a node id `n` that exists in the map and is not
the empty string, `findPath(map, n, n, preferences)` succeeds with the
single-node path at distance and time `0` — the goal test fires when the
start node is popped, before any edge is expanded.  (For the empty id the
reconstruction loop's falsy check empties the path; see the
counterexample.) -/
theorem c10_self_route (sqrt : α → α) (map : IndoorMap α) (n : String)
    (nd : MapNode α) (preferences : Option (RoutePreferences α))
    (hnd : getAssoc (buildNodeMap map) n = some nd) (hne : ¬n = "") :
    findPath sqrt map n n preferences =
      some { id := uuidv4, startNode := n, endNode := n, totalDistance := 0,
             estimatedTime := 0,
             path := [{ nodeId := nd.id, name := nd.name, type := nd.type,
                        coordinates := nd.coordinates, distanceFromStart := 0,
                        estimatedTimeFromStart := 0 }],
             instructions := [], createdAt := isoNow } := by
  have hz : jsRound ((0 : α) / WALKING_SPEED_MPS) = 0 := by
    rw [zero_div, jsRound_zero]
  have hrecon : reconstructPath ([] : List (String × String))
      (map.nodes.length + 1) (some n) = [n] := by
    have hb : (n == "") = false := beq_eq_false_iff_ne.2 hne
    simp only [reconstructPath, hb]
    rw [if_neg (by simp)]
    show reconstructPath ([] : List (String × String)) map.nodes.length
      none ++ [n] = [n]
    rw [reconstructPath_none]
    simp
  have hloop : astarLoop sqrt preferences (buildGraph map preferences)
      (buildNodeMap map) n nd (map.nodes.length + 1) (map.nodes.length + 1)
      ⟨[⟨n, ((0 : α) : WithTop α),
          ((heuristic sqrt nd.coordinates nd.coordinates : α) : WithTop α),
          none⟩], [],
        [(n, ((0 : α) : WithTop α))]⟩ [] = some [n] := by
    simp [astarLoop, selectLowest, scanLowest, WithTop.coe_lt_top, hrecon]
  simp only [findPath, hnd]
  rw [hloop]
  simp only [Option.map_some']
  congr 1
  simp [buildRoute, buildRouteGo, hnd, hz, jsRound_zero]

/-- Witness for the amended C10 at the interior node of the line map. -/
theorem c10_self_route_witness :
    findPath Fix.qsqrt Fix.lineMap "b" "b" none =
      some { id := uuidv4, startNode := "b", endNode := "b",
             totalDistance := 0, estimatedTime := 0,
             path := [{ nodeId := "b", name := "b", type := .hallway,
                        coordinates := ⟨0, 10, 0⟩, distanceFromStart := 0,
                        estimatedTimeFromStart := 0 }],
             instructions := [], createdAt := isoNow } :=
  c10_self_route Fix.qsqrt Fix.lineMap "b" (Fix.node "b" .hallway 0 10) none
    rfl (by decide)

/-- **C10** (counterexample): a node id may be the empty string, which the
reconstruction loop's JavaScript truthiness check treats as termination —
`findPath` then succeeds but with an *empty* path, not the single-node
path the claim asserts. -/
theorem c10_empty_id_counterexample :
    ∃ r : Route ℚ, findPath Fix.qsqrt Fix.emptyIdMap "" "" none = some r ∧
      r.path = [] ∧ r.totalDistance = 0 :=
  ⟨_, rfl, rfl, rfl⟩

/-! ## Claim C7 -/

/-- `renumberFrom` keeps the length. -/
theorem renumberFrom_length (k : ℕ) (l : List (NavigationInstruction α)) :
    (renumberFrom k l).length = l.length := by
  induction l generalizing k with
  | nil => rfl
  | cons ins rest ih => simp [renumberFrom, ih]

/-- The step numbers after `renumberFrom k` are `k, k+1, …` in order. -/
theorem renumberFrom_map_step (k : ℕ) (l : List (NavigationInstruction α)) :
    (renumberFrom k l).map (fun i => i.stepNumber) =
      List.range' k l.length := by
  induction l generalizing k with
  | nil => rfl
  | cons ins rest ih =>
    simp [renumberFrom, ih, List.range'_succ]

/-- `renumberFrom` keeps every action. -/
theorem renumberFrom_map_action (k : ℕ)
    (l : List (NavigationInstruction α)) :
    (renumberFrom k l).map (fun i => i.action) =
      l.map (fun i => i.action) := by
  induction l generalizing k with
  | nil => rfl
  | cons ins rest ih => simp [renumberFrom, ih]

/-- `renumberFrom` keeps the count of any action-based predicate. -/
theorem renumberFrom_countP (k : ℕ) (l : List (NavigationInstruction α))
    (q : InstructionAction → Bool) :
    (renumberFrom k l).countP (fun i => q i.action) =
      l.countP (fun i => q i.action) := by
  have h1 := List.countP_map q (fun i : NavigationInstruction α => i.action)
    (renumberFrom k l)
  have h2 := List.countP_map q (fun i : NavigationInstruction α => i.action) l
  rw [renumberFrom_map_action] at h1
  rw [h2] at h1
  exact h1.symm

/-- The splice always inserts (JavaScript clamps the index). -/
theorem spliceInsert_length (l : List (NavigationInstruction α)) (i : ℕ)
    (x : NavigationInstruction α) :
    (spliceInsert l i x).length = l.length + 1 := by
  unfold spliceInsert
  exact List.length_insertIdx _ _ (min_le_right _ _)

/-- The splice adds exactly the inserted element to any count. -/
theorem spliceInsert_countP (l : List (NavigationInstruction α)) (i : ℕ)
    (x : NavigationInstruction α) (p : NavigationInstruction α → Bool) :
    (spliceInsert l i x).countP p =
      l.countP p + (if p x then 1 else 0) := by
  unfold spliceInsert
  rw [(List.perm_insertIdx x l (min_le_right i l.length)).countP_eq,
    List.countP_cons]

/-- One alert's inner insertion loop: it grows the instruction list by the
alert's path-hit count, each insertion being the alert's caution
instruction. -/
theorem hazard_inner (currentPath : List (RouteNode α)) (alert : MapAlert)
    (p : NavigationInstruction α → Bool) :
    ∀ (nodes : List String) (res : List (NavigationInstruction α)),
      (nodes.foldl (fun res nodeId =>
          if (currentPath.map (fun n => n.nodeId)).contains nodeId then
            match currentPath.findIdx? (fun n => n.nodeId == nodeId) with
            | some nodeIndex =>
              spliceInsert res nodeIndex (cautionInstruction alert)
            | none => res
          else res) res).length =
        res.length + (nodes.filter (fun nodeId =>
          (currentPath.map (fun n => n.nodeId)).contains nodeId)).length ∧
      (nodes.foldl (fun res nodeId =>
          if (currentPath.map (fun n => n.nodeId)).contains nodeId then
            match currentPath.findIdx? (fun n => n.nodeId == nodeId) with
            | some nodeIndex =>
              spliceInsert res nodeIndex (cautionInstruction alert)
            | none => res
          else res) res).countP p =
        res.countP p + (nodes.filter (fun nodeId =>
          (currentPath.map (fun n => n.nodeId)).contains nodeId)).length *
          (if p (cautionInstruction alert) then 1 else 0) := by
  intro nodes
  induction nodes with
  | nil =>
    intro res
    constructor
    · rfl
    · simp
  | cons nodeId rest ih =>
    intro res
    simp only [List.foldl_cons]
    by_cases hc :
        ((currentPath.map (fun n => n.nodeId)).contains nodeId) = true
    · have hidx : (currentPath.findIdx? (fun n => n.nodeId == nodeId)).isSome =
          true := by
        rw [List.findIdx?_isSome]
        have hmem : nodeId ∈ currentPath.map (fun n => n.nodeId) :=
          List.elem_iff.1 hc
        obtain ⟨n, hn, hne⟩ := List.mem_map.1 hmem
        rw [List.any_eq_true]
        exact ⟨n, hn, by rw [hne]; exact beq_self_eq_true _⟩
      obtain ⟨ix, hix⟩ := Option.isSome_iff_exists.1 hidx
      have hstep : (if (currentPath.map (fun n => n.nodeId)).contains nodeId =
            true then
          match currentPath.findIdx? (fun n => n.nodeId == nodeId) with
          | some nodeIndex =>
            spliceInsert res nodeIndex (cautionInstruction alert)
          | none => res
        else res) = spliceInsert res ix (cautionInstruction alert) := by
        rw [if_pos hc, hix]
      have hfil : (nodeId :: rest).filter (fun nodeId =>
          (currentPath.map (fun n => n.nodeId)).contains nodeId) =
          nodeId :: rest.filter (fun nodeId =>
            (currentPath.map (fun n => n.nodeId)).contains nodeId) := by
        rw [List.filter_cons, if_pos hc]
      rw [hstep]
      obtain ⟨ih1, ih2⟩ := ih (spliceInsert res ix (cautionInstruction alert))
      constructor
      · rw [ih1, spliceInsert_length, hfil, List.length_cons]
        omega
      · rw [ih2, spliceInsert_countP, hfil, List.length_cons]
        ring
    · have hc' : ((currentPath.map (fun n => n.nodeId)).contains nodeId) =
          false := by
        cases hb : ((currentPath.map (fun n => n.nodeId)).contains nodeId) with
        | true => exact absurd hb hc
        | false => rfl
      have hstep : (if (currentPath.map (fun n => n.nodeId)).contains nodeId =
            true then
          match currentPath.findIdx? (fun n => n.nodeId == nodeId) with
          | some nodeIndex =>
            spliceInsert res nodeIndex (cautionInstruction alert)
          | none => res
        else res) = res := by
        rw [if_neg (by rw [hc']; exact Bool.false_ne_true)]
      have hfil : (nodeId :: rest).filter (fun nodeId =>
          (currentPath.map (fun n => n.nodeId)).contains nodeId) =
          rest.filter (fun nodeId =>
            (currentPath.map (fun n => n.nodeId)).contains nodeId) := by
        rw [List.filter_cons, if_neg (by rw [hc']; exact Bool.false_ne_true)]
      rw [hstep, hfil]
      obtain ⟨ih1, ih2⟩ := ih res
      exact ⟨ih1, ih2⟩

/-- The outer alert loop: it grows the instruction list by the total
alert-path intersection count. -/
theorem hazard_outer (currentPath : List (RouteNode α))
    (p : NavigationInstruction α → Bool) :
    ∀ (alerts : List MapAlert) (res : List (NavigationInstruction α)),
      (alerts.foldl (fun res alert =>
          alert.affectedNodes.foldl (fun res nodeId =>
            if (currentPath.map (fun n => n.nodeId)).contains nodeId then
              match currentPath.findIdx? (fun n => n.nodeId == nodeId) with
              | some nodeIndex =>
                spliceInsert res nodeIndex (cautionInstruction alert)
              | none => res
            else res) res) res).length =
        res.length + (alerts.map
          (alertPathHits (currentPath.map (fun n => n.nodeId)))).sum ∧
      ((∀ a : MapAlert, p (cautionInstruction a) = true) →
        (alerts.foldl (fun res alert =>
            alert.affectedNodes.foldl (fun res nodeId =>
              if (currentPath.map (fun n => n.nodeId)).contains nodeId then
                match currentPath.findIdx? (fun n => n.nodeId == nodeId) with
                | some nodeIndex =>
                  spliceInsert res nodeIndex (cautionInstruction alert)
                | none => res
              else res) res) res).countP p =
          res.countP p + (alerts.map
            (alertPathHits (currentPath.map (fun n => n.nodeId)))).sum) := by
  intro alerts
  induction alerts with
  | nil =>
    intro res
    constructor
    · simp
    · intro _
      simp
  | cons alert rest ih =>
    intro res
    rw [List.foldl_cons]
    obtain ⟨hin1, hin2⟩ := hazard_inner currentPath alert p
      alert.affectedNodes res
    obtain ⟨ih1, ih2⟩ := ih (alert.affectedNodes.foldl (fun res nodeId =>
      if (currentPath.map (fun n => n.nodeId)).contains nodeId then
        match currentPath.findIdx? (fun n => n.nodeId == nodeId) with
        | some nodeIndex =>
          spliceInsert res nodeIndex (cautionInstruction alert)
        | none => res
      else res) res)
    constructor
    · rw [ih1, hin1]
      simp only [List.map_cons, List.sum_cons, alertPathHits]
      omega
    · intro hall
      rw [ih2 hall, hin2, hall alert]
      simp only [List.map_cons, List.sum_cons, alertPathHits, if_pos,
        mul_one]
      omega

/-- **C7**: after `addHazardWarnings` the step numbers are exactly
`1..N` in order, where `N` is the original instruction count plus one
caution per alert per affected node lying on the path (no deduplication);
the caution count grows by exactly that sum, and each caution carries
priority `critical` exactly when its alert's severity is critical,
`important` otherwise. -/
theorem c7_hazard_renumbering (instructions : List (NavigationInstruction α))
    (map : IndoorMap α) (currentPath : List (RouteNode α)) :
    (addHazardWarnings instructions map currentPath).map
        (fun i => i.stepNumber) =
      List.range' 1 (instructions.length + ((map.alerts.getD []).map
        (alertPathHits (currentPath.map (fun n => n.nodeId)))).sum) ∧
    (addHazardWarnings instructions map currentPath).countP
        (fun i => i.action == InstructionAction.caution) =
      instructions.countP (fun i => i.action == InstructionAction.caution) +
        ((map.alerts.getD []).map
          (alertPathHits (currentPath.map (fun n => n.nodeId)))).sum ∧
    ∀ alert : MapAlert,
      (cautionInstruction alert : NavigationInstruction α).priority =
        if alert.severity = Severity.critical then Priority.critical
        else Priority.important := by
  obtain ⟨hlen, hcount⟩ :=
    hazard_outer currentPath (fun i => i.action == InstructionAction.caution)
      (map.alerts.getD []) instructions
  refine ⟨?_, ?_, ?_⟩
  · simp only [addHazardWarnings]
    rw [renumberFrom_map_step, hlen]
  · simp only [addHazardWarnings]
    have hre := renumberFrom_countP 1 ((map.alerts.getD []).foldl
      (fun res alert =>
        alert.affectedNodes.foldl (fun res nodeId =>
          if (currentPath.map (fun n => n.nodeId)).contains nodeId then
            match currentPath.findIdx? (fun n => n.nodeId == nodeId) with
            | some nodeIndex =>
              spliceInsert res nodeIndex (cautionInstruction alert)
            | none => res
          else res) res) instructions)
      (fun a => a == InstructionAction.caution)
    simp only [] at hre
    rw [hre]
    exact hcount (fun a => rfl)
  · intro alert
    simp [cautionInstruction, beq_iff_eq]

/-! ## Claim C8 -/

/-- The merge branch keeps the previous instruction's action. -/
theorem mergeStraight_action (last ins : NavigationInstruction α) :
    (mergeStraight last ins).action = last.action := rfl

/-- The simplify loop only ever produces lists in which no two adjacent
instructions are both mergeable-straight. -/
theorem simplifyGo_noadj (l : List (NavigationInstruction α)) :
    ∀ racc : List (NavigationInstruction α), NoAdjStraight racc.reverse →
      NoAdjStraight (simplifyGo racc l) := by
  induction l with
  | nil =>
    intro racc h
    simpa [simplifyGo] using h
  | cons ins rest ih =>
    intro racc h
    cases racc with
    | nil =>
      show NoAdjStraight (simplifyGo [ins] rest)
      exact ih [ins] (by simp [NoAdjStraight])
    | cons last others =>
      by_cases hb : (straightish last.action && straightish ins.action) = true
      · have hred : simplifyGo (last :: others) (ins :: rest) =
            simplifyGo (mergeStraight last ins :: others) rest := by
          simp only [simplifyGo]
          rw [if_pos hb]
        rw [hred]
        apply ih
        have hrev0 : (last :: others).reverse = others.reverse ++ [last] := by
          simp
        rw [hrev0] at h
        have hrev : (mergeStraight last ins :: others).reverse =
            others.reverse ++ [mergeStraight last ins] := by
          simp
        rw [hrev]
        unfold NoAdjStraight at h ⊢
        rw [List.chain'_append] at h ⊢
        obtain ⟨h1, _, h3⟩ := h
        refine ⟨h1, List.chain'_singleton _, ?_⟩
        intro x hx y hy
        simp only [List.head?_cons, Option.mem_def, Option.some.injEq] at hy
        subst hy
        rw [mergeStraight_action]
        exact h3 x hx last (by simp)
      · have hred : simplifyGo (last :: others) (ins :: rest) =
            simplifyGo (ins :: last :: others) rest := by
          simp only [simplifyGo]
          rw [if_neg hb]
        rw [hred]
        apply ih
        have hb' : (straightish last.action && straightish ins.action) =
            false := by
          cases hx : (straightish last.action && straightish ins.action) with
          | true => exact absurd hx hb
          | false => rfl
        have hrev : (ins :: last :: others).reverse =
            (last :: others).reverse ++ [ins] := by
          simp
        rw [hrev]
        unfold NoAdjStraight at h ⊢
        rw [List.chain'_append]
        refine ⟨h, List.chain'_singleton _, ?_⟩
        intro x hx y hy
        simp only [List.head?_cons, Option.mem_def, Option.some.injEq] at hy
        subst hy
        rw [List.getLast?_reverse] at hx
        simp only [List.head?_cons, Option.mem_def, Option.some.injEq] at hx
        subst hx
        exact hb'

/-- On a list with no adjacent mergeable-straight pair the simplify loop
is a plain copy. -/
theorem simplifyGo_id (l : List (NavigationInstruction α)) :
    ∀ racc : List (NavigationInstruction α), NoAdjStraight l →
      (∀ a ∈ racc.head?, ∀ b ∈ l.head?,
        (straightish a.action && straightish b.action) = false) →
      simplifyGo racc l = racc.reverse ++ l := by
  induction l with
  | nil =>
    intro racc _ _
    simp [simplifyGo]
  | cons ins rest ih =>
    intro racc hl hjoin
    cases racc with
    | nil =>
      show simplifyGo [ins] rest = List.reverse [] ++ ins :: rest
      rw [ih [ins] (List.Chain'.tail hl) ?_]
      · simp
      · intro a ha b hbb
        simp only [List.head?_cons, Option.mem_def, Option.some.injEq] at ha
        subst ha
        exact (List.chain'_cons'.1 hl).1 b hbb
    | cons last others =>
      have hb : (straightish last.action && straightish ins.action) = false :=
        hjoin last (by simp) ins (by simp)
      have hred : simplifyGo (last :: others) (ins :: rest) =
          simplifyGo (ins :: last :: others) rest := by
        simp only [simplifyGo]
        rw [if_neg (by rw [hb]; exact Bool.false_ne_true)]
      rw [hred, ih (ins :: last :: others) (List.Chain'.tail hl) ?_]
      · simp
      · intro a ha b hbb
        simp only [List.head?_cons, Option.mem_def, Option.some.injEq] at ha
        subst ha
        exact (List.chain'_cons'.1 hl).1 b hbb

/-- **C8**: `simplifyInstructions` is idempotent — running it on its own
output returns that output unchanged, element-wise over all fields. -/
theorem c8_simplify_idempotent (x : List (NavigationInstruction α)) :
    simplifyInstructions (simplifyInstructions x) = simplifyInstructions x := by
  have h1 : NoAdjStraight (simplifyInstructions x) := by
    unfold simplifyInstructions
    exact simplifyGo_noadj x [] (by simp [NoAdjStraight])
  have h2 := simplifyGo_id (simplifyInstructions x) [] h1 (by simp)
  calc simplifyInstructions (simplifyInstructions x)
      = simplifyGo [] (simplifyInstructions x) := rfl
    _ = List.reverse [] ++ simplifyInstructions x := h2
    _ = simplifyInstructions x := by simp

/-! ## Claim C5 -/

/-- The heuristic of a point to itself is `0`. -/
theorem heuristic_self (a : Coordinates ℝ) : heuristic Real.sqrt a a = 0 := by
  simp [heuristic]

/-- The heuristic is the Euclidean distance of the `(x, y, 4·floor)`
embeddings. -/
theorem heuristic_eq_dist (a b : Coordinates ℝ) :
    heuristic Real.sqrt a b =
      dist ((WithLp.equiv 2 (Fin 3 → ℝ)).symm ![a.x, a.y, a.floor * 4])
        ((WithLp.equiv 2 (Fin 3 → ℝ)).symm ![b.x, b.y, b.floor * 4]) := by
  rw [EuclideanSpace.dist_eq, Fin.sum_univ_three]
  unfold heuristic
  simp only [WithLp.equiv_symm_pi_apply, Matrix.cons_val_zero,
    Matrix.cons_val_one, Matrix.head_cons, Matrix.cons_val_two,
    Matrix.tail_cons, Real.dist_eq, sq_abs]
  congr 1
  ring

/-- The heuristic obeys the triangle inequality. -/
theorem heuristic_triangle (a b c : Coordinates ℝ) :
    heuristic Real.sqrt a c ≤
      heuristic Real.sqrt a b + heuristic Real.sqrt b c := by
  rw [heuristic_eq_dist, heuristic_eq_dist, heuristic_eq_dist]
  exact dist_triangle _ _ _

/-- **C5** (amended): the heuristic never overestimates the total cost of
a coordinate chain *whose per-step costs dominate the heuristic of their
endpoints* — straight-line admissibility.  Without that hypothesis the
claim is false: an edge may declare a distance far below the coordinate
distance of its endpoints (see the counterexample). -/
theorem c5_heuristic_chain_bound
    (cost : Coordinates ℝ → Coordinates ℝ → ℝ)
    (hcost : ∀ a b, heuristic Real.sqrt a b ≤ cost a b)
    (goal : Coordinates ℝ) :
    ∀ (cs : List (Coordinates ℝ)) (c0 : Coordinates ℝ),
      cs.head? = some c0 → cs.getLast? = some goal →
      heuristic Real.sqrt c0 goal ≤
        ((cs.zip cs.tail).map (fun q => cost q.1 q.2)).sum := by
  intro cs
  induction cs with
  | nil =>
    intro c0 hh _
    exact absurd hh (by simp)
  | cons c t ih =>
    intro c0 hh hl
    have hc : c = c0 := by simpa using hh
    subst hc
    cases t with
    | nil =>
      have hg : c = goal := by simpa using hl
      subst hg
      simp [heuristic_self]
    | cons c1 t' =>
      rw [List.getLast?_cons_cons] at hl
      have ihc := ih c1 rfl hl
      have htri := heuristic_triangle c c1 goal
      have hsum : (((c :: c1 :: t').zip (c :: c1 :: t').tail).map
          (fun q => cost q.1 q.2)).sum =
          cost c c1 + (((c1 :: t').zip (c1 :: t').tail).map
            (fun q => cost q.1 q.2)).sum := by
        simp [List.zip_cons_cons]
      rw [hsum]
      calc heuristic Real.sqrt c goal
          ≤ heuristic Real.sqrt c c1 + heuristic Real.sqrt c1 goal := htri
        _ ≤ cost c c1 + (((c1 :: t').zip (c1 :: t').tail).map
              (fun q => cost q.1 q.2)).sum := add_le_add (hcost c c1) ihc

/-- Witness for the amended C5: the heuristic itself as per-step cost, on
a two-point chain. -/
theorem c5_heuristic_chain_bound_witness :
    heuristic Real.sqrt (⟨0, 0, 0⟩ : Coordinates ℝ) ⟨3, 4, 0⟩ ≤
      ((([⟨0, 0, 0⟩, ⟨3, 4, 0⟩] : List (Coordinates ℝ)).zip
        ([⟨0, 0, 0⟩, ⟨3, 4, 0⟩] : List (Coordinates ℝ)).tail).map
          (fun q => heuristic Real.sqrt q.1 q.2)).sum :=
  c5_heuristic_chain_bound (heuristic Real.sqrt) (fun a b => le_refl _)
    ⟨3, 4, 0⟩ [⟨0, 0, 0⟩, ⟨3, 4, 0⟩] ⟨0, 0, 0⟩ rfl rfl

/-- **C5** (counterexample): two nodes 100 m apart in coordinates joined
by a traversable edge of declared distance 1 — the heuristic (100)
overestimates the cheapest path cost (1). -/
theorem c5_overestimate_counterexample :
    ViableStep (buildGraph Fix.farMap none) (buildNodeMap Fix.farMap) none
      "a" "b" ∧
    getAssoc (buildNodeMap Fix.farMap) "a" =
      some (Fix.nodeR "a" .room 0 0) ∧
    getAssoc (buildNodeMap Fix.farMap) "b" =
      some (Fix.nodeR "b" .room 100 0) ∧
    discountedPathSum none (buildEdgeMap Fix.farMap.edges) ["a", "b"] = 1 ∧
    heuristic Real.sqrt (Fix.nodeR "a" .room 0 0).coordinates
      (Fix.nodeR "b" .room 100 0).coordinates = 100 ∧
    ¬heuristic Real.sqrt (Fix.nodeR "a" .room 0 0).coordinates
        (Fix.nodeR "b" .room 100 0).coordinates ≤
      discountedPathSum none (buildEdgeMap Fix.farMap.edges) ["a", "b"] := by
  have hstep : ViableStep (buildGraph Fix.farMap none)
      (buildNodeMap Fix.farMap) none "a" "b" := by
    refine ⟨⟨"b", 1, true, EdgeType.hallway, false⟩, ?_, rfl, ?_, rfl⟩
    · have hga : (getAssoc (buildGraph Fix.farMap none) "a").getD
          ([] : List (GraphEdge ℝ)) =
          [⟨"b", 1, true, EdgeType.hallway, false⟩] := rfl
      rw [hga]
      exact List.mem_singleton.2 rfl
    · simp
  have hlk : getAssoc (buildEdgeMap Fix.farMap.edges) (edgeKey "a" "b") =
      some (Fix.edgeR "e1" "a" "b" 1 EdgeType.hallway) := rfl
  have h1 : discountedPathSum none (buildEdgeMap Fix.farMap.edges)
      ["a", "b"] = 1 := by
    simp only [discountedPathSum, discountedLookupDist, hlk]
    rw [if_neg (by simp [prefPreferElevators])]
    norm_num [Fix.edgeR]
  have h100 : heuristic Real.sqrt (Fix.nodeR "a" .room 0 0).coordinates
      (Fix.nodeR "b" .room 100 0).coordinates = 100 := by
    show heuristic Real.sqrt (⟨0, 0, 0⟩ : Coordinates ℝ) ⟨100, 0, 0⟩ = 100
    unfold heuristic
    norm_num
    rw [show (10000 : ℝ) = 100 ^ 2 by norm_num]
    exact Real.sqrt_sq (by norm_num)
  refine ⟨hstep, rfl, rfl, h1, h100, ?_⟩
  rw [h1, h100]
  norm_num

/-! ## Claim C6 -/

/-- With the genuine `atan2`, a compass bearing lies in `[0, 360)`. -/
theorem calculateAngle_bounds (a b : Coordinates ℝ) :
    0 ≤ calculateAngle
        (fun dx dy => Complex.arg ⟨dy, dx⟩ * (180 / Real.pi)) a b ∧
      calculateAngle
        (fun dx dy => Complex.arg ⟨dy, dx⟩ * (180 / Real.pi)) a b < 360 := by
  have hpi : (0 : ℝ) < Real.pi := Real.pi_pos
  have hc : (0 : ℝ) < 180 / Real.pi := by positivity
  have h1 : Complex.arg ⟨b.y - a.y, b.x - a.x⟩ ≤ Real.pi :=
    Complex.arg_le_pi _
  have h2 : -Real.pi < Complex.arg ⟨b.y - a.y, b.x - a.x⟩ :=
    Complex.neg_pi_lt_arg _
  have hub : Complex.arg ⟨b.y - a.y, b.x - a.x⟩ * (180 / Real.pi) ≤ 180 := by
    calc Complex.arg ⟨b.y - a.y, b.x - a.x⟩ * (180 / Real.pi)
        ≤ Real.pi * (180 / Real.pi) :=
          mul_le_mul_of_nonneg_right h1 (le_of_lt hc)
      _ = 180 := by field_simp
  have hlb : -180 < Complex.arg ⟨b.y - a.y, b.x - a.x⟩ * (180 / Real.pi) := by
    calc (-180 : ℝ) = -Real.pi * (180 / Real.pi) := by
          field_simp
          ring
      _ < Complex.arg ⟨b.y - a.y, b.x - a.x⟩ * (180 / Real.pi) :=
          mul_lt_mul_of_pos_right h2 hc
  simp only [calculateAngle]
  by_cases hneg : Complex.arg ⟨b.y - a.y, b.x - a.x⟩ * (180 / Real.pi) < 0
  · rw [if_pos hneg]
    constructor
    · linarith
    · linarith
  · rw [if_neg hneg]
    constructor
    · linarith
    · linarith

/-- The `angleDiff` field of `calculateTurn` is the normalized bearing
difference (every classification branch carries the same value). -/
theorem calculateTurn_angleDiff (atan2deg : α → α → α)
    (prev current next : Coordinates α) :
    (calculateTurn atan2deg prev current next).angleDiff =
      (if (if calculateAngle atan2deg current next -
            calculateAngle atan2deg prev current > 180 then
          calculateAngle atan2deg current next -
            calculateAngle atan2deg prev current - 360
        else calculateAngle atan2deg current next -
            calculateAngle atan2deg prev current) < -180 then
        (if calculateAngle atan2deg current next -
            calculateAngle atan2deg prev current > 180 then
          calculateAngle atan2deg current next -
            calculateAngle atan2deg prev current - 360
        else calculateAngle atan2deg current next -
            calculateAngle atan2deg prev current) + 360
      else
        (if calculateAngle atan2deg current next -
            calculateAngle atan2deg prev current > 180 then
          calculateAngle atan2deg current next -
            calculateAngle atan2deg prev current - 360
        else calculateAngle atan2deg current next -
            calculateAngle atan2deg prev current)) := by
  simp only [calculateTurn]
  split_ifs <;> rfl

/-- The action of `calculateTurn` is exactly the specification's
classification of its own `angleDiff`. -/
theorem calculateTurn_action (atan2deg : α → α → α)
    (prev current next : Coordinates α) :
    (calculateTurn atan2deg prev current next).action =
      specTurnAction (calculateTurn atan2deg prev current next).angleDiff := by
  have h : ∀ d : α,
      (if |d| < TURN_THRESHOLD then (⟨.go_straight, d⟩ : TurnResult α)
       else if |d| < SLIGHT_TURN_THRESHOLD then
         ⟨if d > 0 then .slight_right else .slight_left, d⟩
       else if |d| < 150 then
         ⟨if d > 0 then .turn_right else .turn_left, d⟩
       else ⟨.turn_around, d⟩).action =
      specTurnAction
        (if |d| < TURN_THRESHOLD then (⟨.go_straight, d⟩ : TurnResult α)
         else if |d| < SLIGHT_TURN_THRESHOLD then
           ⟨if d > 0 then .slight_right else .slight_left, d⟩
         else if |d| < 150 then
           ⟨if d > 0 then .turn_right else .turn_left, d⟩
         else ⟨.turn_around, d⟩).angleDiff := by
    intro d
    have hd : (if |d| < TURN_THRESHOLD then (⟨.go_straight, d⟩ : TurnResult α)
       else if |d| < SLIGHT_TURN_THRESHOLD then
         ⟨if d > 0 then .slight_right else .slight_left, d⟩
       else if |d| < 150 then
         ⟨if d > 0 then .turn_right else .turn_left, d⟩
       else ⟨.turn_around, d⟩).angleDiff = d := by
      split_ifs <;> rfl
    rw [hd]
    unfold specTurnAction TURN_THRESHOLD SLIGHT_TURN_THRESHOLD
    split_ifs <;> rfl
  simp only [calculateTurn]
  exact h _

/-- **C6** (amended): with the genuine `atan2`, the normalized bearing
difference lies in the *closed* interval `[-180, 180]` — the value `-180`
is attainable (see the counterexample), so the claimed half-open
`(-180, 180]` is wrong at that endpoint — and the chosen action is the
specification's classification applied to that difference. -/
theorem c6_turn_classification (prev current next : Coordinates ℝ) :
    -180 ≤ (calculateTurn
        (fun dx dy => Complex.arg ⟨dy, dx⟩ * (180 / Real.pi))
        prev current next).angleDiff ∧
      (calculateTurn (fun dx dy => Complex.arg ⟨dy, dx⟩ * (180 / Real.pi))
        prev current next).angleDiff ≤ 180 ∧
      (calculateTurn (fun dx dy => Complex.arg ⟨dy, dx⟩ * (180 / Real.pi))
        prev current next).action =
        specTurnAction (calculateTurn
          (fun dx dy => Complex.arg ⟨dy, dx⟩ * (180 / Real.pi))
          prev current next).angleDiff := by
  obtain ⟨hi0, hi1⟩ := calculateAngle_bounds prev current
  obtain ⟨ho0, ho1⟩ := calculateAngle_bounds current next
  have hact := calculateTurn_action
    (fun dx dy => Complex.arg ⟨dy, dx⟩ * (180 / Real.pi)) prev current next
  have hb : -180 ≤ (calculateTurn
      (fun dx dy => Complex.arg ⟨dy, dx⟩ * (180 / Real.pi))
      prev current next).angleDiff ∧
      (calculateTurn (fun dx dy => Complex.arg ⟨dy, dx⟩ * (180 / Real.pi))
        prev current next).angleDiff ≤ 180 := by
    rw [calculateTurn_angleDiff]
    constructor
    · split_ifs <;> linarith
    · split_ifs <;> linarith
  exact ⟨hb.1, hb.2, hact⟩

/-- **C6** (counterexample): walking back the way one came produces a
bearing difference of exactly `-180` — outside the claimed normalization
range `(-180, 180]` — classified as `turn_around`. -/
theorem c6_neg180_counterexample :
    (calculateTurn (fun dx dy => Complex.arg ⟨dy, dx⟩ * (180 / Real.pi))
      ⟨0, 1, 0⟩ ⟨0, 0, 0⟩ ⟨0, 1, 0⟩).angleDiff = -180 ∧
    (calculateTurn (fun dx dy => Complex.arg ⟨dy, dx⟩ * (180 / Real.pi))
      ⟨0, 1, 0⟩ ⟨0, 0, 0⟩ ⟨0, 1, 0⟩).action = InstructionAction.turn_around ∧
    ¬(-180 < (calculateTurn
        (fun dx dy => Complex.arg ⟨dy, dx⟩ * (180 / Real.pi))
        ⟨0, 1, 0⟩ ⟨0, 0, 0⟩ ⟨0, 1, 0⟩).angleDiff) := by
  have hin : calculateAngle
      (fun dx dy => Complex.arg ⟨dy, dx⟩ * (180 / Real.pi))
      (⟨0, 1, 0⟩ : Coordinates ℝ) ⟨0, 0, 0⟩ = 180 := by
    simp only [calculateAngle]
    rw [show (⟨(⟨0, 0, 0⟩ : Coordinates ℝ).y - (⟨0, 1, 0⟩ : Coordinates ℝ).y,
        (⟨0, 0, 0⟩ : Coordinates ℝ).x - (⟨0, 1, 0⟩ : Coordinates ℝ).x⟩ : ℂ) =
      -1 by simp [Complex.ext_iff]]
    rw [Complex.arg_neg_one]
    rw [show Real.pi * (180 / Real.pi) = (180 : ℝ) by field_simp]
    norm_num
  have hout : calculateAngle
      (fun dx dy => Complex.arg ⟨dy, dx⟩ * (180 / Real.pi))
      (⟨0, 0, 0⟩ : Coordinates ℝ) ⟨0, 1, 0⟩ = 0 := by
    simp only [calculateAngle]
    rw [show (⟨(⟨0, 1, 0⟩ : Coordinates ℝ).y - (⟨0, 0, 0⟩ : Coordinates ℝ).y,
        (⟨0, 1, 0⟩ : Coordinates ℝ).x - (⟨0, 0, 0⟩ : Coordinates ℝ).x⟩ : ℂ) =
      1 by simp [Complex.ext_iff]]
    rw [Complex.arg_one]
    norm_num
  have hdiff : (calculateTurn
      (fun dx dy => Complex.arg ⟨dy, dx⟩ * (180 / Real.pi))
      ⟨0, 1, 0⟩ ⟨0, 0, 0⟩ ⟨0, 1, 0⟩).angleDiff = -180 := by
    rw [calculateTurn_angleDiff, hin, hout]
    norm_num
  refine ⟨hdiff, ?_, by rw [hdiff]; norm_num⟩
  rw [calculateTurn_action, hdiff]
  unfold specTurnAction
  rw [if_neg (by rw [abs_of_nonpos] <;> norm_num),
    if_neg (by rw [abs_of_nonpos] <;> norm_num),
    if_neg (by rw [abs_of_nonpos] <;> norm_num)]

end Nav
